import Mathlib

/-! VGA text-mode terminal driver (`kernel_src/vgaterm.c`).

A shallow embedding of the driver: the machine state (memory, I/O ports, CRT
controller registers) is passed explicitly, C `int` values are `Int`, bytes are
`Nat`, and every C `for` loop runs through `forLoop`.  Each function carries a
trace of the calls it makes so that statements about "what the driver did" can
be made next to statements about the resulting memory.

The constants of `vgaterm.h` (`TXTMODE_COLS`, `TXTMODE_ROWS`, `WHITE_ON_BLACK`) are
parameters, collected in `Config`; the port primitives of `port.h` are modelled as
a CRT controller with an index port and a data port.  C `int` values are carried
in `Int`; the value `vga_scroll_line` returns, the one result stated for every
`int` argument, is reduced to 32 bits by `wrapInt`, and conversions to
`unsigned char` reduce modulo 256.
-/

namespace VgaTerm

/-! ## Configuration and machine state -/

/-- Constants declared by `vgaterm.h`, taken as parameters. -/
structure Config where
  TXTMODE_COLS : Int
  TXTMODE_ROWS : Int
  WHITE_ON_BLACK : Nat

/-- The standard 80x25 text mode with the white-on-black attribute `0x0f`. -/
def textMode : Config := ⟨80, 25, 0x0f⟩

/-- A configuration is usable when the grid is not empty and every cell index fits the
16-bit hardware cursor. -/
def Config.valid (cfg : Config) : Prop :=
  0 < cfg.TXTMODE_COLS ∧ 0 < cfg.TXTMODE_ROWS ∧ cfg.TXTMODE_COLS * cfg.TXTMODE_ROWS ≤ 65536

instance (cfg : Config) : Decidable cfg.valid := by
  unfold Config.valid; infer_instance

/-- Calls recorded in the trace of a run, most recent first. -/
inductive Event where
  | portIn (port val : Nat)
  | portOut (port val : Nat)
  | setChar (off : Int)
  | copy (src dst n : Int)
  | scroll (off : Int)

/-- Machine state seen by the driver: byte-addressed memory, the I/O port latches, the
CRT controller register file, and the trace of calls made so far. -/
structure VGA where
  mem : Int → Nat
  port : Nat → Nat
  crtc : Nat → Nat
  trace : List Event

def VGA_CTRL_REGISTER : Nat := 0x3d4
def VGA_DATA_REGISTER : Nat := 0x3d5
def VGA_OFFSET_LOW : Nat := 0x0f
def VGA_OFFSET_HIGH : Nat := 0x0e
def VGA_ADDRESS : Int := 0xb8000

/-- Store of one byte: `*(p) = v`. -/
def poke (m : Int → Nat) (p : Int) (v : Nat) : Int → Nat :=
  fun a => if a = p then v else m a

/-- Conversion of an `int` to `unsigned char`. -/
def toUChar (x : Int) : Nat := (x % 256).toNat

/-- Smallest value of a 32-bit C `int`. -/
def INT_MIN : Int := -2147483648

/-- Largest value of a 32-bit C `int`. -/
def INT_MAX : Int := 2147483647

/-- Result of 32-bit `int` arithmetic: the mathematical result reduced modulo `2^32` into
`[INT_MIN, INT_MAX]` (two's complement wrap-around). -/
def wrapInt (x : Int) : Int := (x + 2147483648) % 4294967296 - 2147483648

/-- The loop `for (i = start; remaining iterations; i++) body(i)`. -/
def forLoop {σ : Type} (body : Int → σ → σ) : Nat → Int → σ → σ
  | 0, _, s => s
  | k + 1, i, s => forLoop body k (i + 1) (body i s)

/-- Modelled from the spec: `port_byte_out` of the missing `port.h`, the platform's
`writeByte(port, byte)`.  A write to the CRT controller data port lands in the register
selected through the control port; any other port keeps the byte written to it. -/
def port_byte_out (port val : Nat) (s : VGA) : VGA :=
  if port = VGA_DATA_REGISTER then
    { s with
      crtc := fun r => if r = s.port VGA_CTRL_REGISTER then val else s.crtc r
      trace := Event.portOut port val :: s.trace }
  else
    { s with
      port := fun p => if p = port then val else s.port p
      trace := Event.portOut port val :: s.trace }

/-- Modelled from the spec: `port_byte_in` of the missing `port.h`, the platform's
`readByte(port)`.  A read of the CRT controller data port returns the register selected
through the control port; any other port returns the byte it holds. -/
def port_byte_in (port : Nat) (s : VGA) : Nat × VGA :=
  let v := if port = VGA_DATA_REGISTER then s.crtc (s.port VGA_CTRL_REGISTER) else s.port port
  (v, { s with trace := Event.portIn port v :: s.trace })

/-! ## The driver -/

/-- The byte-by-byte forward copy `memcpy(src, dst, n)` of the driver. -/
def memcpy (src dst n : Int) (s : VGA) : VGA :=
  forLoop (fun i t => { t with mem := poke t.mem (dst + i) (t.mem (src + i)) }) n.toNat 0
    { s with trace := Event.copy src dst n :: s.trace }

def vga_offset_row (cfg : Config) (off : Int) : Int :=
  Int.tdiv off (2 * cfg.TXTMODE_COLS)

def vga_row_col_offset (cfg : Config) (col row : Int) : Int :=
  2 * (row * cfg.TXTMODE_COLS + col)

def vga_enable_blink (s : VGA) : VGA :=
  let s1 := (port_byte_in 0x3da s).2
  let s2 := port_byte_out 0x3c0 0x30 s1
  let r := port_byte_in 0x3c1 s2
  let am := (r.1 ||| 0x80) % 256
  port_byte_out 0x4c0 am r.2

def vga_set_cursor_off (off : Int) (s : VGA) : VGA :=
  let off := Int.tdiv off 2
  let s := port_byte_out VGA_CTRL_REGISTER VGA_OFFSET_HIGH s
  let s := port_byte_out VGA_DATA_REGISTER (toUChar (Int.shiftRight off 8)) s
  let s := port_byte_out VGA_CTRL_REGISTER VGA_OFFSET_LOW s
  port_byte_out VGA_DATA_REGISTER (toUChar (Int.land off 0xff)) s

def vga_get_cursor_off (s : VGA) : Int × VGA :=
  let s := port_byte_out VGA_CTRL_REGISTER VGA_OFFSET_HIGH s
  let r := port_byte_in VGA_DATA_REGISTER s
  let off : Int := ((r.1 <<< 8 : Nat) : Int)
  let s := port_byte_out VGA_CTRL_REGISTER VGA_OFFSET_LOW r.2
  let r := port_byte_in VGA_DATA_REGISTER s
  let off := off + (r.1 : Int)
  (off * 2, r.2)

/-- The byte `buff[off]`, with `buff = (unsigned char*)VGA_ADDRESS`. -/
def buff (s : VGA) (off : Int) : Nat := s.mem (VGA_ADDRESS + off)

def vga_set_char_c (c : Nat) (off : Int) (color : Nat) (s : VGA) : VGA :=
  { s with
    mem := poke (poke s.mem (VGA_ADDRESS + off) c) (VGA_ADDRESS + (off + 1)) color
    trace := Event.setChar off :: s.trace }

def vga_set_char (cfg : Config) (c : Nat) (off : Int) (s : VGA) : VGA :=
  vga_set_char_c c off cfg.WHITE_ON_BLACK s

def vga_clear (cfg : Config) (s : VGA) : VGA :=
  let s := forLoop (fun i t => vga_set_char cfg 32 (i * 2) t)
    (cfg.TXTMODE_COLS * cfg.TXTMODE_ROWS).toNat 0 s
  vga_set_cursor_off 0 s

def vga_scroll_line (cfg : Config) (off : Int) (s : VGA) : Int × VGA :=
  let s := { s with trace := Event.scroll off :: s.trace }
  let s := memcpy (vga_row_col_offset cfg 0 1 + VGA_ADDRESS)
    (vga_row_col_offset cfg 0 0 + VGA_ADDRESS)
    (cfg.TXTMODE_COLS * (cfg.TXTMODE_ROWS - 1) * 2) s
  let s := forLoop
    (fun col t => vga_set_char cfg 32 (vga_row_col_offset cfg col (cfg.TXTMODE_ROWS - 1)) t)
    cfg.TXTMODE_COLS.toNat 0 s
  (wrapInt (off - 2 * cfg.TXTMODE_COLS), s)

def vga_print_char_c (cfg : Config) (c : Nat) (off : Int) (color : Nat) (s : VGA) : VGA :=
  let r0 : Int × VGA := if off < 0 then vga_get_cursor_off s else (off, s)
  let r1 : Int × VGA :=
    if c = 10 then (vga_row_col_offset cfg 0 (vga_offset_row cfg r0.1 + 1), r0.2)
    else if c = 8 then (r0.1 - 2, r0.2)
    else (r0.1 + 2, vga_set_char_c c r0.1 color r0.2)
  let r2 : Int × VGA :=
    if r1.1 ≥ cfg.TXTMODE_ROWS * cfg.TXTMODE_COLS * 2 then vga_scroll_line cfg r1.1 r1.2
    else r1
  let off3 : Int := if r2.1 < 0 then 0 else r2.1
  vga_set_cursor_off off3 r2.2

def vga_print_char (cfg : Config) (c : Nat) (off : Int) (s : VGA) : VGA :=
  vga_print_char_c cfg c off cfg.WHITE_ON_BLACK s

/-- The loop `while (str[i] != 0) { vga_print_char_c(str[i], -1, color); i++; }` over the
bytes of `str`; the end of the list stands for the terminating null byte. -/
def vga_print_string_loop (cfg : Config) (color : Nat) : List Nat → VGA → VGA
  | [], s => s
  | c :: rest, s =>
    if c = 0 then s
    else vga_print_string_loop cfg color rest (vga_print_char_c cfg c (-1) color s)

def vga_print_string_c (cfg : Config) (str : List Nat) (off : Int) (color : Nat)
    (s : VGA) : VGA :=
  let s := if off < 0 then (vga_get_cursor_off s).2 else vga_set_cursor_off off s
  vga_print_string_loop cfg color str s

def vga_print_string (cfg : Config) (str : List Nat) (off : Int) (s : VGA) : VGA :=
  vga_print_string_c cfg str off cfg.WHITE_ON_BLACK s

def vga_init (cfg : Config) (s : VGA) : VGA :=
  vga_clear cfg (vga_enable_blink s)

/-! ## Derived observations -/

/-- Number of calls of `vga_scroll_line` recorded in a trace. -/
def scrollCount : List Event → Nat
  | [] => 0
  | Event.scroll _ :: t => scrollCount t + 1
  | _ :: t => scrollCount t

/-- The cursor offset that `vga_get_cursor_off` reads back. -/
def cursorOff (s : VGA) : Int := (vga_get_cursor_off s).1

/-- Size of the frame buffer in bytes, `2 * COLS * ROWS`. -/
def bufSize (cfg : Config) : Int := 2 * cfg.TXTMODE_COLS * cfg.TXTMODE_ROWS

/-- The offset `vga_print_char_c` starts from: the cursor when `off < 0`, else `off`. -/
def startOff (off : Int) (s : VGA) : Int := if off < 0 then cursorOff s else off

/-- The offset `vga_print_char_c` holds after the control-character dispatch, before the
scroll test, when it started from `o`. -/
def nextOff (cfg : Config) (c : Nat) (o : Int) : Int :=
  if c = 10 then vga_row_col_offset cfg 0 (vga_offset_row cfg o + 1)
  else if c = 8 then o - 2
  else o + 2

/-- The offset `vga_print_char_c` hands to `vga_set_cursor_off` when it started from `o`. -/
def finalOff (cfg : Config) (c : Nat) (o : Int) : Int :=
  let n := nextOff cfg c o
  let m :=
    if n ≥ cfg.TXTMODE_ROWS * cfg.TXTMODE_COLS * 2 then wrapInt (n - 2 * cfg.TXTMODE_COLS)
    else n
  if m < 0 then 0 else m

/-- The cursor offset read back lies inside the frame buffer. -/
def cursorInRange (cfg : Config) (s : VGA) : Prop :=
  0 ≤ cursorOff s ∧ cursorOff s < bufSize cfg

instance (cfg : Config) (s : VGA) : Decidable (cursorInRange cfg s) := by
  unfold cursorInRange; infer_instance

/-- A power-on state: zeroed memory, ports and registers, empty trace. -/
def zeroState : VGA := ⟨fun _ => 0, fun _ => 0, fun _ => 0, []⟩

/-! ## Sample states -/

/-- A state whose memory holds a different pattern in every row of the 80x25 grid. -/
def patternState : VGA :=
  ⟨fun a => ((a - VGA_ADDRESS) / 160 + 65).toNat, fun _ => 0, fun _ => 0, []⟩

/-- State of the 80x25 console with the cursor on the last cell of the last row. -/
def lastCellState : VGA :=
  ⟨fun a => ((a - VGA_ADDRESS) / 160 + 65).toNat, fun _ => 0,
    fun r => if r = 14 then 7 else if r = 15 then 207 else 0, []⟩

/-- State of the 80x25 console with the cursor on column 5 of row 0 and the glyphs `'X'`
and `'Y'` in columns 4 and 5. -/
def columnFiveState : VGA :=
  ⟨fun p => if p = VGA_ADDRESS + 8 then 88 else if p = VGA_ADDRESS + 10 then 89 else 0,
    fun _ => 0, fun r => if r = 15 then 5 else 0, []⟩

/-! ## Specification of string printing -/

/-- Specification of `printString` in the words of the spec: force the cursor to `off`
when `off` is an explicit offset, leave it as it is when `off` is the sentinel, then call
`printChar` with the current-cursor sentinel for each byte of `str` that precedes its
first null byte, in order. -/
def printStringSpec (cfg : Config) (str : List Nat) (off : Int) (color : Nat) (s : VGA) : VGA :=
  (str.takeWhile (fun c => c != 0)).foldl
    (fun t c => vga_print_char_c cfg c (-1) color t)
    (if off < 0 then s else vga_set_cursor_off off s)

/-! ## Further sample states -/

/-- A state with arbitrary-looking memory, ports and registers: memory byte `p` holds
`p mod 251`, every port latch holds `0x0c`, every CRT controller register holds 3. -/
def busyState : VGA := ⟨fun p => (p % 251).toNat, fun _ => 0x0c, fun _ => 3, []⟩

/-- State whose frame buffer starts with the bytes 1, 2, 3 and holds 0 elsewhere. -/
def countingState : VGA :=
  ⟨fun p => if VGA_ADDRESS ≤ p ∧ p < VGA_ADDRESS + 3 then (p - VGA_ADDRESS + 1).toNat else 0,
    fun _ => 0, fun _ => 0, []⟩

/-! ## Accesses inside the frame buffer -/

/-- A recorded call stays inside the frame buffer: a cell write has an even offset with
both of its bytes inside `[0, 2*COLS*ROWS)`, and a region copy reads and writes only
addresses of the frame buffer.  Port accesses and scroll markers touch no memory. -/
def Event.safe (cfg : Config) : Event → Prop
  | Event.setChar off => off % 2 = 0 ∧ 0 ≤ off ∧ off + 1 < bufSize cfg
  | Event.copy src dst n =>
      0 ≤ n ∧ VGA_ADDRESS ≤ src ∧ src + n ≤ VGA_ADDRESS + bufSize cfg ∧
      VGA_ADDRESS ≤ dst ∧ dst + n ≤ VGA_ADDRESS + bufSize cfg
  | _ => True

/-- Every call recorded in a trace stays inside the frame buffer. -/
def traceSafe (cfg : Config) (t : List Event) : Prop := ∀ e ∈ t, e.safe cfg

/-- States reachable from `vga_init`, run on a machine with nothing recorded yet, by
`vga_print_char_c` and `vga_print_string_c` calls that use the current-cursor sentinel. -/
inductive Reachable (cfg : Config) : VGA → Prop
  | init (s0 : VGA) (h : s0.trace = []) : Reachable cfg (vga_init cfg s0)
  | printChar (s : VGA) (c : Nat) (off : Int) (color : Nat) (hoff : off < 0)
      (hs : Reachable cfg s) : Reachable cfg (vga_print_char_c cfg c off color s)
  | printString (s : VGA) (str : List Nat) (off : Int) (color : Nat) (hoff : off < 0)
      (hs : Reachable cfg s) : Reachable cfg (vga_print_string_c cfg str off color s)

/-! ## Cursor registers -/

theorem cursorOff_eq (s : VGA) :
    cursorOff s = 2 * ((s.crtc 14 : Int) * 256 + (s.crtc 15 : Int)) := by
  simp [cursorOff, vga_get_cursor_off, port_byte_out, port_byte_in, VGA_CTRL_REGISTER,
    VGA_DATA_REGISTER, VGA_OFFSET_HIGH, VGA_OFFSET_LOW, Nat.shiftLeft_eq]
  ring

theorem get_cursor_fst (s : VGA) : (vga_get_cursor_off s).1 = cursorOff s := rfl

theorem get_cursor_mem (s : VGA) : (vga_get_cursor_off s).2.mem = s.mem := by
  simp [vga_get_cursor_off, port_byte_out, port_byte_in, VGA_CTRL_REGISTER,
    VGA_DATA_REGISTER]

theorem get_cursor_crtc (s : VGA) : (vga_get_cursor_off s).2.crtc = s.crtc := by
  simp [vga_get_cursor_off, port_byte_out, port_byte_in, VGA_CTRL_REGISTER,
    VGA_DATA_REGISTER]

theorem set_cursor_mem (off : Int) (s : VGA) : (vga_set_cursor_off off s).mem = s.mem := by
  simp [vga_set_cursor_off, port_byte_out, VGA_CTRL_REGISTER, VGA_DATA_REGISTER]

theorem toUChar_land (o : Int) (h : 0 ≤ o) : toUChar (Int.land o 0xff) = (o % 256).toNat := by
  obtain ⟨n, rfl⟩ := Int.eq_ofNat_of_zero_le h
  have h1 : Int.land (n : Int) 0xff = ((n &&& 255 : Nat) : Int) := rfl
  have h2 : n &&& 255 = n % 256 := Nat.and_pow_two_sub_one_eq_mod n 8
  rw [toUChar, h1, h2]
  omega

theorem toUChar_shift (o : Int) : toUChar (Int.shiftRight o 8) = (o / 256 % 256).toNat := by
  have h : Int.shiftRight o 8 = o / 256 := by
    rw [← Int.shiftRight_eq, Int.shiftRight_eq_div_pow]; norm_num
  rw [toUChar, h]

theorem set_cursor_crtc (off : Int) (h : 0 ≤ off) (s : VGA) :
    (vga_set_cursor_off off s).crtc = fun r =>
      if r = 15 then ((off / 2) % 256).toNat
      else if r = 14 then ((off / 2 / 256) % 256).toNat else s.crtc r := by
  have h2 : Int.tdiv off 2 = off / 2 := Int.tdiv_eq_ediv h (by decide)
  have h3 : 0 ≤ off / 2 := by omega
  funext r
  simp only [vga_set_cursor_off, h2, toUChar_land _ h3, toUChar_shift]
  simp [port_byte_out, VGA_CTRL_REGISTER, VGA_DATA_REGISTER, VGA_OFFSET_HIGH, VGA_OFFSET_LOW]

theorem cursorOff_set_cursor (off : Int) (h : 0 ≤ off) (s : VGA) :
    cursorOff (vga_set_cursor_off off s) = 2 * ((off / 2) % 65536) := by
  rw [cursorOff_eq, set_cursor_crtc off h]
  simp
  omega

/-! ## Loops -/

theorem forLoop_keeps {σ α : Type} (f : σ → α) (body : Int → σ → σ)
    (h : ∀ i t, f (body i t) = f t) (k : Nat) (i : Int) (t : σ) :
    f (forLoop body k i t) = f t := by
  induction k generalizing i t with
  | zero => rfl
  | succ k ih => rw [forLoop, ih, h]

theorem forLoop_crtc (body : Int → VGA → VGA) (h : ∀ i t, (body i t).crtc = t.crtc)
    (k : Nat) (i : Int) (t : VGA) : (forLoop body k i t).crtc = t.crtc :=
  forLoop_keeps (fun t => t.crtc) body h k i t

theorem forLoop_port (body : Int → VGA → VGA) (h : ∀ i t, (body i t).port = t.port)
    (k : Nat) (i : Int) (t : VGA) : (forLoop body k i t).port = t.port :=
  forLoop_keeps (fun t => t.port) body h k i t

theorem forLoop_scrolls (body : Int → VGA → VGA)
    (h : ∀ i t, scrollCount (body i t).trace = scrollCount t.trace)
    (k : Nat) (i : Int) (t : VGA) :
    scrollCount (forLoop body k i t).trace = scrollCount t.trace :=
  forLoop_keeps (fun t => scrollCount t.trace) body h k i t

theorem copy_loop_mem (src dst : Int) (hsd : dst ≤ src) (k : Nat) (i : Int) (t : VGA)
    (a : Int) :
    (forLoop (fun i t => { t with mem := poke t.mem (dst + i) (t.mem (src + i)) }) k i t).mem a
      = if dst + i ≤ a ∧ a < dst + i + k then t.mem (a - dst + src) else t.mem a := by
  induction k generalizing i t with
  | zero =>
    rw [forLoop]
    split_ifs <;> first | rfl | (exfalso; omega)
  | succ k ih =>
    rw [forLoop, ih]
    simp only [poke]
    split_ifs <;> first | rfl | (exfalso; omega) | (congr 1; omega)

theorem fill_loop_mem (cfg : Config) (c : Nat) (g : Int → Int) (b : Int)
    (hg : ∀ i, g i = b + 2 * i) (k : Nat) (i : Int) (t : VGA) (a : Int) :
    (forLoop (fun i t => vga_set_char cfg c (g i) t) k i t).mem a
      = if VGA_ADDRESS + b + 2 * i ≤ a ∧ a < VGA_ADDRESS + b + 2 * (i + k) then
          (if (a - (VGA_ADDRESS + b)) % 2 = 0 then c else cfg.WHITE_ON_BLACK)
        else t.mem a := by
  induction k generalizing i t with
  | zero =>
    rw [forLoop]
    split_ifs <;> first | rfl | (exfalso; omega)
  | succ k ih =>
    rw [forLoop, ih]
    simp only [vga_set_char, vga_set_char_c, poke, hg]
    split_ifs <;> first | rfl | (exfalso; omega)

/-! ## Frame buffer operations -/

theorem get_cursor_scrolls (s : VGA) :
    scrollCount (vga_get_cursor_off s).2.trace = scrollCount s.trace := by
  simp [vga_get_cursor_off, port_byte_out, port_byte_in, VGA_CTRL_REGISTER,
    VGA_DATA_REGISTER, scrollCount]

theorem set_cursor_scrolls (off : Int) (s : VGA) :
    scrollCount (vga_set_cursor_off off s).trace = scrollCount s.trace := by
  simp [vga_set_cursor_off, port_byte_out, VGA_CTRL_REGISTER, VGA_DATA_REGISTER, scrollCount]

theorem set_char_scrolls (c : Nat) (off : Int) (color : Nat) (s : VGA) :
    scrollCount (vga_set_char_c c off color s).trace = scrollCount s.trace := by
  simp [vga_set_char_c, scrollCount]

theorem scroll_line_scrolls (cfg : Config) (off : Int) (s : VGA) :
    scrollCount (vga_scroll_line cfg off s).2.trace = scrollCount s.trace + 1 := by
  simp only [vga_scroll_line, memcpy]
  rw [forLoop_scrolls, forLoop_scrolls]
  · simp [scrollCount]
  · intro i t; rfl
  · intro i t; exact set_char_scrolls _ _ _ t

theorem scroll_line_fst (cfg : Config) (off : Int) (s : VGA) :
    (vga_scroll_line cfg off s).1 = wrapInt (off - 2 * cfg.TXTMODE_COLS) := rfl

theorem wrapInt_of_fits (x : Int) (h0 : INT_MIN ≤ x) (h1 : x ≤ INT_MAX) : wrapInt x = x := by
  unfold INT_MIN at h0
  unfold INT_MAX at h1
  unfold wrapInt
  omega

theorem scroll_line_crtc (cfg : Config) (off : Int) (s : VGA) :
    (vga_scroll_line cfg off s).2.crtc = s.crtc := by
  simp only [vga_scroll_line, memcpy]
  rw [forLoop_crtc, forLoop_crtc]
  all_goals (intro i t; rfl)

/-- Closed form of the frame buffer after one scroll. -/
theorem scroll_line_buff (cfg : Config) (hC : 0 ≤ cfg.TXTMODE_COLS) (off : Int) (s : VGA)
    (x : Int) :
    buff (vga_scroll_line cfg off s).2 x =
      if 2 * ((cfg.TXTMODE_ROWS - 1) * cfg.TXTMODE_COLS) ≤ x ∧
          x < 2 * ((cfg.TXTMODE_ROWS - 1) * cfg.TXTMODE_COLS) + 2 * cfg.TXTMODE_COLS then
        (if x % 2 = 0 then 32 else cfg.WHITE_ON_BLACK)
      else if 0 ≤ x ∧ x < 2 * ((cfg.TXTMODE_ROWS - 1) * cfg.TXTMODE_COLS) then
        buff s (x + 2 * cfg.TXTMODE_COLS)
      else buff s x := by
  have hcomm : cfg.TXTMODE_COLS * (cfg.TXTMODE_ROWS - 1)
      = (cfg.TXTMODE_ROWS - 1) * cfg.TXTMODE_COLS := mul_comm _ _
  simp only [vga_scroll_line, memcpy, buff]
  rw [fill_loop_mem cfg 32 _ (2 * ((cfg.TXTMODE_ROWS - 1) * cfg.TXTMODE_COLS))
    (fun i => by simp only [vga_row_col_offset]; ring)]
  rw [copy_loop_mem _ _ (by simp only [vga_row_col_offset]; omega)]
  simp only [vga_row_col_offset, hcomm]
  split_ifs <;> first | rfl | (exfalso; omega) | (congr 1; omega)

theorem set_cursor_port (off : Int) (s : VGA) :
    (vga_set_cursor_off off s).port =
      fun p => if p = VGA_CTRL_REGISTER then VGA_OFFSET_LOW else s.port p := by
  funext p
  simp [vga_set_cursor_off, port_byte_out, VGA_CTRL_REGISTER, VGA_DATA_REGISTER]
  split_ifs <;> rfl

/-- Closed form of the frame buffer after `vga_clear`. -/
theorem clear_buff (cfg : Config) (s : VGA) (x : Int) :
    buff (vga_clear cfg s) x =
      if 0 ≤ x ∧ x < 2 * ((cfg.TXTMODE_COLS * cfg.TXTMODE_ROWS).toNat : Int) then
        (if x % 2 = 0 then 32 else cfg.WHITE_ON_BLACK)
      else buff s x := by
  simp only [vga_clear, buff, set_cursor_mem]
  rw [fill_loop_mem cfg 32 _ 0 (fun i => by ring)]
  split_ifs <;> first | rfl | (exfalso; omega)

theorem clear_crtc (cfg : Config) (s : VGA) :
    (vga_clear cfg s).crtc =
      fun r => if r = 15 then 0 else if r = 14 then 0 else s.crtc r := by
  simp only [vga_clear]
  rw [set_cursor_crtc 0 (le_refl 0), forLoop_crtc]
  · rfl
  · intro i t; rfl

theorem clear_port (cfg : Config) (s : VGA) :
    (vga_clear cfg s).port =
      fun p => if p = VGA_CTRL_REGISTER then VGA_OFFSET_LOW else s.port p := by
  simp only [vga_clear]
  rw [set_cursor_port, forLoop_port]
  intro i t; rfl

theorem clear_cursor (cfg : Config) (s : VGA) : cursorOff (vga_clear cfg s) = 0 := by
  rw [cursorOff_eq, clear_crtc]; simp

/-! ## Printing one character -/

theorem finalOff_nonneg (cfg : Config) (c : Nat) (o : Int) : 0 ≤ finalOff cfg c o := by
  simp only [finalOff]
  split_ifs <;> omega

theorem startOff_get (off : Int) (s : VGA) :
    (if off < 0 then vga_get_cursor_off s else (off, s)).1 = startOff off s := by
  unfold startOff
  split_ifs <;> rfl

/-- The state `vga_print_char_c` reaches, written as one `vga_set_cursor_off` applied to
the state `u` after the optional cursor read, the optional glyph write and the optional
scroll. -/
theorem print_char_eq (cfg : Config) (c : Nat) (off : Int) (color : Nat) (s : VGA) :
    ∃ u : VGA, u.mem = s.mem ∧ u.crtc = s.crtc ∧ scrollCount u.trace = scrollCount s.trace ∧
      vga_print_char_c cfg c off color s =
        vga_set_cursor_off (finalOff cfg c (startOff off s))
          (if nextOff cfg c (startOff off s) ≥ cfg.TXTMODE_ROWS * cfg.TXTMODE_COLS * 2 then
            (vga_scroll_line cfg (nextOff cfg c (startOff off s))
              (if c = 10 then u else if c = 8 then u
                else vga_set_char_c c (startOff off s) color u)).2
          else (if c = 10 then u else if c = 8 then u
                else vga_set_char_c c (startOff off s) color u)) := by
  refine ⟨(if off < 0 then vga_get_cursor_off s else (off, s)).2, ?_, ?_, ?_, ?_⟩
  · split_ifs
    · exact get_cursor_mem s
    · rfl
  · split_ifs
    · exact get_cursor_crtc s
    · rfl
  · split_ifs
    · exact get_cursor_scrolls s
    · rfl
  · simp only [vga_print_char_c, finalOff, nextOff, startOff_get]
    by_cases h10 : c = 10
    · simp only [h10, if_true]
      split_ifs <;> (try simp only [scroll_line_fst] at *) <;>
        first | rfl | (exfalso; omega)
    · by_cases h8 : c = 8
      · simp only [h8, if_true]
        split_ifs <;> (try simp only [scroll_line_fst] at *) <;>
          first | rfl | (exfalso; omega)
      · simp only [h10, h8, if_false]
        split_ifs <;> (try simp only [scroll_line_fst] at *) <;>
          first | rfl | (exfalso; omega)

theorem print_char_cursor (cfg : Config) (c : Nat) (off : Int) (color : Nat) (s : VGA) :
    cursorOff (vga_print_char_c cfg c off color s) =
      2 * ((finalOff cfg c (startOff off s) / 2) % 65536) := by
  obtain ⟨u, -, -, -, h⟩ := print_char_eq cfg c off color s
  rw [h, cursorOff_set_cursor _ (finalOff_nonneg _ _ _)]

theorem print_char_scrolls (cfg : Config) (c : Nat) (off : Int) (color : Nat) (s : VGA) :
    scrollCount (vga_print_char_c cfg c off color s).trace = scrollCount s.trace +
      (if nextOff cfg c (startOff off s) ≥ cfg.TXTMODE_ROWS * cfg.TXTMODE_COLS * 2
        then 1 else 0) := by
  obtain ⟨u, -, -, hu, h⟩ := print_char_eq cfg c off color s
  rw [h, set_cursor_scrolls]
  split_ifs <;> simp only [scroll_line_scrolls, set_char_scrolls, hu, Nat.add_zero]

theorem set_char_buff (c : Nat) (off : Int) (color : Nat) (s : VGA) (x : Int) :
    buff (vga_set_char_c c off color s) x =
      if x = off + 1 then color else if x = off then c else buff s x := by
  simp only [buff, vga_set_char_c, poke]
  split_ifs <;> first | rfl | (exfalso; omega)

theorem buff_congr {u s : VGA} (h : u.mem = s.mem) (x : Int) : buff u x = buff s x := by
  simp only [buff, h]

/-- A newline or backspace that does not scroll leaves the frame buffer alone. -/
theorem print_char_buff_control (cfg : Config) (c : Nat) (off : Int) (color : Nat) (s : VGA)
    (hc : c = 10 ∨ c = 8)
    (hn : nextOff cfg c (startOff off s) < cfg.TXTMODE_ROWS * cfg.TXTMODE_COLS * 2) (x : Int) :
    buff (vga_print_char_c cfg c off color s) x = buff s x := by
  obtain ⟨u, hu, -, -, h⟩ := print_char_eq cfg c off color s
  rw [h, buff_congr (set_cursor_mem _ _), if_neg (not_le.mpr hn)]
  rcases hc with hc | hc
  · rw [if_pos hc]; exact buff_congr hu x
  · rw [if_pos hc, ite_self]; exact buff_congr hu x

/-- A glyph that does not scroll changes exactly the two bytes of its cell. -/
theorem print_char_buff_glyph (cfg : Config) (c : Nat) (off : Int) (color : Nat) (s : VGA)
    (h10 : c ≠ 10) (h8 : c ≠ 8)
    (hn : startOff off s + 2 < cfg.TXTMODE_ROWS * cfg.TXTMODE_COLS * 2) (x : Int) :
    buff (vga_print_char_c cfg c off color s) x =
      if x = startOff off s + 1 then color else if x = startOff off s then c else buff s x := by
  obtain ⟨u, hu, -, -, h⟩ := print_char_eq cfg c off color s
  have hn2 : nextOff cfg c (startOff off s) = startOff off s + 2 := by
    simp only [nextOff, h10, h8, if_false]
  rw [h, buff_congr (set_cursor_mem _ _), hn2, if_neg (not_le.mpr hn), if_neg h10, if_neg h8,
    set_char_buff, buff_congr hu]

/-- A glyph that scrolls: the cell is written first, then the screen moves up one row. -/
theorem print_char_buff_glyph_scroll (cfg : Config) (hC : 0 ≤ cfg.TXTMODE_COLS)
    (c : Nat) (off : Int) (color : Nat) (s : VGA) (h10 : c ≠ 10) (h8 : c ≠ 8)
    (hn : cfg.TXTMODE_ROWS * cfg.TXTMODE_COLS * 2 ≤ startOff off s + 2) (x : Int) :
    buff (vga_print_char_c cfg c off color s) x =
      if 2 * ((cfg.TXTMODE_ROWS - 1) * cfg.TXTMODE_COLS) ≤ x ∧
          x < 2 * ((cfg.TXTMODE_ROWS - 1) * cfg.TXTMODE_COLS) + 2 * cfg.TXTMODE_COLS then
        (if x % 2 = 0 then 32 else cfg.WHITE_ON_BLACK)
      else if 0 ≤ x ∧ x < 2 * ((cfg.TXTMODE_ROWS - 1) * cfg.TXTMODE_COLS) then
        (if x + 2 * cfg.TXTMODE_COLS = startOff off s + 1 then color
          else if x + 2 * cfg.TXTMODE_COLS = startOff off s then c
          else buff s (x + 2 * cfg.TXTMODE_COLS))
      else (if x = startOff off s + 1 then color else if x = startOff off s then c
        else buff s x) := by
  obtain ⟨u, hu, -, -, h⟩ := print_char_eq cfg c off color s
  have hn2 : nextOff cfg c (startOff off s) = startOff off s + 2 := by
    simp only [nextOff, h10, h8, if_false]
  rw [h, buff_congr (set_cursor_mem _ _), hn2, if_pos hn, if_neg h10, if_neg h8,
    scroll_line_buff cfg hC]
  simp only [set_char_buff, buff_congr hu]

theorem cursor_fits (f : Int) (h0 : 0 ≤ f) (h1 : f < 131072) (he : f % 2 = 0) :
    2 * ((f / 2) % 65536) = f := by
  omega

/-! ## Offsets -/

theorem rows_cols_eq (cfg : Config) :
    cfg.TXTMODE_ROWS * cfg.TXTMODE_COLS * 2 = bufSize cfg := by
  unfold bufSize; ring

theorem last_row_eq (cfg : Config) :
    2 * ((cfg.TXTMODE_ROWS - 1) * cfg.TXTMODE_COLS) = bufSize cfg - 2 * cfg.TXTMODE_COLS := by
  unfold bufSize; ring

theorem bufSize_le (cfg : Config) (hv : cfg.valid) : bufSize cfg ≤ 131072 := by
  have h : bufSize cfg = 2 * (cfg.TXTMODE_COLS * cfg.TXTMODE_ROWS) := by unfold bufSize; ring
  have := hv.2.2
  omega

theorem row_le_bufSize (cfg : Config) (hv : cfg.valid) : 2 * cfg.TXTMODE_COLS ≤ bufSize cfg := by
  have h : bufSize cfg = 2 * cfg.TXTMODE_COLS + 2 * (cfg.TXTMODE_COLS * (cfg.TXTMODE_ROWS - 1)) := by
    unfold bufSize; ring
  have := mul_nonneg (le_of_lt hv.1) (show (0 : Int) ≤ cfg.TXTMODE_ROWS - 1 by have := hv.2.1; omega)
  omega

theorem row_col_offset_eq (cfg : Config) (col row : Int) :
    vga_row_col_offset cfg col row = row * (2 * cfg.TXTMODE_COLS) + 2 * col := by
  unfold vga_row_col_offset; ring

theorem offset_row_eq (cfg : Config) (o : Int) (hC : 0 < cfg.TXTMODE_COLS) (ho : 0 ≤ o) :
    vga_offset_row cfg o = o / (2 * cfg.TXTMODE_COLS) :=
  Int.tdiv_eq_ediv ho (by omega)

theorem offset_row_nonneg (cfg : Config) (o : Int) (hC : 0 < cfg.TXTMODE_COLS) (ho : 0 ≤ o) :
    0 ≤ vga_offset_row cfg o := by
  rw [offset_row_eq cfg o hC ho]
  exact Int.ediv_nonneg ho (by omega)

theorem offset_row_lt (cfg : Config) (o : Int) (hC : 0 < cfg.TXTMODE_COLS) (ho : 0 ≤ o)
    (h : o < bufSize cfg) : vga_offset_row cfg o < cfg.TXTMODE_ROWS := by
  rw [offset_row_eq cfg o hC ho]
  apply Int.ediv_lt_of_lt_mul (by omega)
  have : bufSize cfg = cfg.TXTMODE_ROWS * (2 * cfg.TXTMODE_COLS) := by unfold bufSize; ring
  omega

theorem offset_row_of_cell (cfg : Config) (col row : Int) (h0 : 0 ≤ col)
    (h1 : col < cfg.TXTMODE_COLS) (hr : 0 ≤ row) :
    vga_offset_row cfg (vga_row_col_offset cfg col row) = row := by
  have hC : 0 < cfg.TXTMODE_COLS := by omega
  have hnn : 0 ≤ vga_row_col_offset cfg col row := by
    rw [row_col_offset_eq]
    have := mul_nonneg hr (show (0 : Int) ≤ 2 * cfg.TXTMODE_COLS by omega)
    omega
  rw [offset_row_eq cfg _ hC hnn, row_col_offset_eq, add_comm,
    Int.add_mul_ediv_right _ _ (by omega), Int.ediv_eq_zero_of_lt (by omega) (by omega)]
  omega

/-- Row start of the row after `r`, compared with the end of the buffer. -/
theorem next_row_le (cfg : Config) (hC : 0 < cfg.TXTMODE_COLS) (r : Int)
    (h : r < cfg.TXTMODE_ROWS) :
    vga_row_col_offset cfg 0 (r + 1) ≤ bufSize cfg ∧
    vga_row_col_offset cfg 0 (r + 1) = vga_row_col_offset cfg 0 r + 2 * cfg.TXTMODE_COLS := by
  constructor
  · have := Int.mul_le_mul_of_nonneg_right (show r + 1 ≤ cfg.TXTMODE_ROWS by omega)
      (show (0 : Int) ≤ 2 * cfg.TXTMODE_COLS by omega)
    have h2 : bufSize cfg = cfg.TXTMODE_ROWS * (2 * cfg.TXTMODE_COLS) := by unfold bufSize; ring
    rw [row_col_offset_eq]; omega
  · unfold vga_row_col_offset; ring

theorem finalOff_range (cfg : Config) (hv : cfg.valid) (c : Nat) (o : Int) (h0 : 0 ≤ o)
    (h1 : o < bufSize cfg) : finalOff cfg c o < bufSize cfg := by
  have hC := hv.1
  have hrow := row_le_bufSize cfg hv
  have hr0 := offset_row_nonneg cfg o hC h0
  have hr1 := offset_row_lt cfg o hC h0 h1
  have hnext := next_row_le cfg hC _ hr1
  have hnn : 0 ≤ vga_row_col_offset cfg 0 (vga_offset_row cfg o) := by
    rw [row_col_offset_eq]
    have := mul_nonneg hr0 (show (0 : Int) ≤ 2 * cfg.TXTMODE_COLS by omega)
    omega
  have hsz := bufSize_le cfg hv
  simp only [finalOff, nextOff, rows_cols_eq, wrapInt]
  split_ifs <;> omega

theorem print_char_in_range (cfg : Config) (hv : cfg.valid) (c : Nat) (off : Int) (color : Nat)
    (s : VGA) (h0 : 0 ≤ startOff off s) (h1 : startOff off s < bufSize cfg) :
    0 ≤ cursorOff (vga_print_char_c cfg c off color s) ∧
    cursorOff (vga_print_char_c cfg c off color s) < bufSize cfg := by
  rw [print_char_cursor]
  have := finalOff_range cfg hv c _ h0 h1
  have := finalOff_nonneg cfg c (startOff off s)
  omega

theorem cursorOff_nonneg (s : VGA) : 0 ≤ cursorOff s := by
  rw [cursorOff_eq]; omega

theorem print_loop_in_range (cfg : Config) (hv : cfg.valid) (color : Nat) (str : List Nat)
    (s : VGA) (h1 : cursorOff s < bufSize cfg) :
    cursorOff (vga_print_string_loop cfg color str s) < bufSize cfg := by
  induction str generalizing s with
  | nil => exact h1
  | cons c rest ih =>
    rw [vga_print_string_loop]
    split_ifs
    · exact h1
    · apply ih
      have hs : startOff (-1) s = cursorOff s := by simp [startOff]
      exact (print_char_in_range cfg hv c (-1) color s (by rw [hs]; exact cursorOff_nonneg s)
        (by rw [hs]; exact h1)).2

theorem print_string_in_range (cfg : Config) (hv : cfg.valid) (str : List Nat) (off : Int)
    (color : Nat) (s : VGA) (h0 : off < 0 → cursorOff s < bufSize cfg)
    (h1 : off < bufSize cfg) :
    0 ≤ cursorOff (vga_print_string_c cfg str off color s) ∧
    cursorOff (vga_print_string_c cfg str off color s) < bufSize cfg := by
  refine ⟨cursorOff_nonneg _, ?_⟩
  unfold vga_print_string_c
  apply print_loop_in_range cfg hv
  split_ifs with h
  · rw [cursorOff_eq, get_cursor_crtc, ← cursorOff_eq]; exact h0 h
  · rw [cursorOff_set_cursor _ (by omega)]
    omega

/-! ## The cursor stays inside the frame buffer -/

/-- C1 (counterexample): in the 80x25 mode, right after `vga_init`, printing `'A'` at the
explicit offset 4158 leaves the cursor at offset 4000, which is not below
`2 * COLS * ROWS = 4000`; so does printing the empty string at the explicit offset 4000. -/
theorem cursor_escapes_on_large_offset :
    ¬ cursorInRange textMode
        (vga_print_char_c textMode 65 4158 textMode.WHITE_ON_BLACK (vga_init textMode zeroState)) ∧
    ¬ cursorInRange textMode
        (vga_print_string_c textMode [] 4000 textMode.WHITE_ON_BLACK
          (vga_init textMode zeroState)) := by
  constructor
  · intro h
    have h2 := h.2
    rw [print_char_cursor] at h2
    have hs : startOff 4158 (vga_init textMode zeroState) = 4158 := by simp [startOff]
    rw [hs] at h2
    revert h2
    decide
  · intro h
    have h2 := h.2
    simp only [vga_print_string_c, vga_print_string_loop] at h2
    rw [if_neg (by decide), cursorOff_set_cursor _ (by decide)] at h2
    revert h2
    decide

/-- C1 (amended): `vga_init` and `vga_clear` leave the cursor offset inside
`[0, 2*COLS*ROWS)` from any state; `vga_print_char_c` and `vga_print_string_c`, for any
character or string and any attribute, leave it inside `[0, 2*COLS*ROWS)` when they are
given an explicit offset inside `[0, 2*COLS*ROWS)`, or the current-cursor sentinel in a
state whose cursor offset is below `2*COLS*ROWS`. -/
theorem cursor_in_range_after_operation (cfg : Config) (hv : cfg.valid) (s : VGA) :
    cursorInRange cfg (vga_init cfg s) ∧ cursorInRange cfg (vga_clear cfg s) ∧
    (∀ (c : Nat) (off : Int) (color : Nat),
      (off < 0 → cursorOff s < bufSize cfg) → off < bufSize cfg →
        cursorInRange cfg (vga_print_char_c cfg c off color s)) ∧
    (∀ (str : List Nat) (off : Int) (color : Nat),
      (off < 0 → cursorOff s < bufSize cfg) → off < bufSize cfg →
        cursorInRange cfg (vga_print_string_c cfg str off color s)) := by
  have hpos : 0 < bufSize cfg := by
    have := row_le_bufSize cfg hv
    have := hv.1
    omega
  refine ⟨?_, ?_, ?_, ?_⟩
  · unfold cursorInRange vga_init
    rw [clear_cursor]; omega
  · unfold cursorInRange
    rw [clear_cursor]; omega
  · intro c off color h0 h1
    apply print_char_in_range cfg hv
    · unfold startOff; split_ifs
      · exact cursorOff_nonneg s
      · omega
    · unfold startOff; split_ifs with h
      · exact h0 h
      · exact h1
  · intro str off color h0 h1
    exact print_string_in_range cfg hv str off color s h0 h1

/-- C1 (witness): the 80x25 mode, the state after `vga_clear`, `'A'` printed at the cursor
and `"AB"` printed at the explicit offset 3998. -/
theorem cursor_in_range_after_operation_witness :
    textMode.valid ∧
    cursorInRange textMode (vga_init textMode (vga_clear textMode zeroState)) ∧
    cursorInRange textMode
      (vga_print_char_c textMode 65 (-1) 15 (vga_clear textMode zeroState)) ∧
    cursorInRange textMode
      (vga_print_string_c textMode [65, 66] 3998 15 (vga_clear textMode zeroState)) :=
  have h := cursor_in_range_after_operation textMode (by decide) (vga_clear textMode zeroState)
  ⟨by decide, h.1,
    h.2.2.1 65 (-1) 15 (fun _ => by rw [clear_cursor]; decide) (by decide),
    h.2.2.2 [65, 66] 3998 15 (fun _ => by rw [clear_cursor]; decide) (by decide)⟩

/-! ## Scrolling -/

/-- Position of the cell `(col, r)` when `r` is one of the first `n` rows. -/
theorem cell_bounds (cfg : Config) (col r n : Int) (h0 : 0 ≤ col) (h1 : col < cfg.TXTMODE_COLS)
    (hr : 0 ≤ r) (hn : r < n) :
    0 ≤ vga_row_col_offset cfg col r ∧
    vga_row_col_offset cfg col r + 2 ≤ 2 * (n * cfg.TXTMODE_COLS) ∧
    vga_row_col_offset cfg col r % 2 = 0 ∧
    vga_row_col_offset cfg col (r + 1) = vga_row_col_offset cfg col r + 2 * cfg.TXTMODE_COLS := by
  have hnn := mul_nonneg hr (show (0 : Int) ≤ cfg.TXTMODE_COLS by omega)
  have hle := Int.mul_le_mul_of_nonneg_right (show r + 1 ≤ n by omega)
    (show (0 : Int) ≤ cfg.TXTMODE_COLS by omega)
  have he : (r + 1) * cfg.TXTMODE_COLS = r * cfg.TXTMODE_COLS + cfg.TXTMODE_COLS := by ring
  have hnext : vga_row_col_offset cfg col (r + 1)
      = vga_row_col_offset cfg col r + 2 * cfg.TXTMODE_COLS := by
    unfold vga_row_col_offset; ring
  refine ⟨?_, ?_, ?_, hnext⟩ <;> unfold vga_row_col_offset <;> omega

/-- C2 (counterexample): in the 80x25 mode `vga_scroll_line` called with the offset
`INT_MIN = -2147483648` returns 2147483488, the 32-bit result of the subtraction, which is
not `off - 2*COLS = -2147483808`. -/
theorem scroll_line_return_wraps :
    (vga_scroll_line textMode INT_MIN zeroState).1 = 2147483488 ∧
    (vga_scroll_line textMode INT_MIN zeroState).1 ≠ INT_MIN - 2 * textMode.TXTMODE_COLS := by
  decide

/-- C2 (amended): for every frame buffer content and every offset `off`,
`vga_scroll_line` leaves in every cell `(col, r)` with `0 <= r < ROWS-1` the glyph and
attribute bytes that cell `(col, r+1)` held before the call and leaves every cell of row
`ROWS-1` holding the space glyph with the default attribute; it returns `off - 2*COLS`
whenever that difference is representable as an `int`
(`INT_MIN <= off - 2*COLS <= INT_MAX`). -/
theorem scroll_line_shifts_rows (cfg : Config) (off : Int) (s : VGA) :
    (∀ col r : Int, 0 ≤ col → col < cfg.TXTMODE_COLS → 0 ≤ r → r < cfg.TXTMODE_ROWS - 1 →
      buff (vga_scroll_line cfg off s).2 (vga_row_col_offset cfg col r) =
        buff s (vga_row_col_offset cfg col (r + 1)) ∧
      buff (vga_scroll_line cfg off s).2 (vga_row_col_offset cfg col r + 1) =
        buff s (vga_row_col_offset cfg col (r + 1) + 1)) ∧
    (∀ col : Int, 0 ≤ col → col < cfg.TXTMODE_COLS →
      buff (vga_scroll_line cfg off s).2
        (vga_row_col_offset cfg col (cfg.TXTMODE_ROWS - 1)) = 32 ∧
      buff (vga_scroll_line cfg off s).2
        (vga_row_col_offset cfg col (cfg.TXTMODE_ROWS - 1) + 1) = cfg.WHITE_ON_BLACK) ∧
    (INT_MIN ≤ off - 2 * cfg.TXTMODE_COLS → off - 2 * cfg.TXTMODE_COLS ≤ INT_MAX →
      (vga_scroll_line cfg off s).1 = off - 2 * cfg.TXTMODE_COLS) := by
  refine ⟨?_, ?_, fun h0 h1 => by rw [scroll_line_fst]; exact wrapInt_of_fits _ h0 h1⟩
  · intro col r h0 h1 hr hn
    obtain ⟨b0, b1, b2, b3⟩ := cell_bounds cfg col r (cfg.TXTMODE_ROWS - 1) h0 h1 hr hn
    rw [scroll_line_buff cfg (by omega), scroll_line_buff cfg (by omega), b3]
    constructor
    · rw [if_neg (by omega), if_pos (by omega)]
    · rw [if_neg (by omega), if_pos (by omega)]
      congr 1; omega
  · intro col h0 h1
    have e : vga_row_col_offset cfg col (cfg.TXTMODE_ROWS - 1)
        = 2 * ((cfg.TXTMODE_ROWS - 1) * cfg.TXTMODE_COLS) + 2 * col := by
      unfold vga_row_col_offset; ring
    rw [scroll_line_buff cfg (by omega), scroll_line_buff cfg (by omega), e]
    constructor
    · rw [if_pos (by omega), if_pos (by omega)]
    · rw [if_pos (by omega), if_neg (by omega)]

/-- C2 (witness): in the 80x25 mode, scrolling `patternState` moves the glyph of cell
`(3, 6)` into cell `(3, 5)`, blanks cell `(3, 24)` and turns the offset 4000 into 3840. -/
theorem scroll_line_shifts_rows_witness :
    buff (vga_scroll_line textMode 4000 patternState).2 (vga_row_col_offset textMode 3 5) = 71 ∧
    buff patternState (vga_row_col_offset textMode 3 5) = 70 ∧
    buff (vga_scroll_line textMode 4000 patternState).2 (vga_row_col_offset textMode 3 24) = 32 ∧
    (vga_scroll_line textMode 4000 patternState).1 = 3840 :=
  have h := scroll_line_shifts_rows textMode 4000 patternState
  ⟨(h.1 3 5 (by decide) (by decide) (by decide) (by decide)).1.trans (by decide),
    by decide,
    (h.2.1 3 (by decide) (by decide)).1,
    (h.2.2 (by decide) (by decide)).trans (by decide)⟩

/-- C3 (counterexample): in the 80x25 mode with the cursor at offset `2*(25*80 - 1)`,
printing `'A'` leaves the cursor at `rowColOffset(0, 24)`, not at `rowColOffset(1, 24)`,
and cell `(0, 24)` holds a space, not `'A'`. -/
theorem last_cell_glyph_not_in_last_row :
    cursorOff lastCellState = 2 * (25 * 80 - 1) ∧
    cursorOff (vga_print_char_c textMode 65 (-1) 15 lastCellState)
      ≠ vga_row_col_offset textMode 1 (25 - 1) ∧
    buff (vga_print_char_c textMode 65 (-1) 15 lastCellState)
      (vga_row_col_offset textMode 0 (25 - 1)) ≠ 65 := by
  have hcur : cursorOff lastCellState = 3998 := by decide
  have hs : startOff (-1) lastCellState = 3998 := by
    simp only [startOff, hcur]; decide
  refine ⟨by decide, ?_, ?_⟩
  · rw [print_char_cursor, hs]; decide
  · rw [print_char_buff_glyph_scroll textMode (by decide) 65 (-1) 15 lastCellState
      (by decide) (by decide) (by rw [hs]; decide), hs]
    decide

/-- C3 (amended): with the cursor on the last cell of the last row, printing one character
`c` other than newline and backspace at the current cursor triggers exactly one scroll,
after which rows `0..ROWS-2` hold the former rows `1..ROWS-1` except that the last cell of
row `ROWS-2` holds the just-written glyph `c` with its attribute, every cell of row
`ROWS-1` is blank, and the cursor offset is `rowColOffset(0, ROWS-1)`. -/
theorem print_at_last_cell (cfg : Config) (hv : cfg.valid) (c a : Nat) (h10 : c ≠ 10)
    (h8 : c ≠ 8) (s : VGA)
    (hcur : cursorOff s = 2 * (cfg.TXTMODE_ROWS * cfg.TXTMODE_COLS - 1)) :
    scrollCount (vga_print_char_c cfg c (-1) a s).trace = scrollCount s.trace + 1 ∧
    (∀ col r : Int, 0 ≤ col → col < cfg.TXTMODE_COLS → 0 ≤ r → r < cfg.TXTMODE_ROWS - 1 →
      ¬ (col = cfg.TXTMODE_COLS - 1 ∧ r = cfg.TXTMODE_ROWS - 2) →
      buff (vga_print_char_c cfg c (-1) a s) (vga_row_col_offset cfg col r) =
        buff s (vga_row_col_offset cfg col (r + 1)) ∧
      buff (vga_print_char_c cfg c (-1) a s) (vga_row_col_offset cfg col r + 1) =
        buff s (vga_row_col_offset cfg col (r + 1) + 1)) ∧
    (1 < cfg.TXTMODE_ROWS →
      buff (vga_print_char_c cfg c (-1) a s)
        (vga_row_col_offset cfg (cfg.TXTMODE_COLS - 1) (cfg.TXTMODE_ROWS - 2)) = c ∧
      buff (vga_print_char_c cfg c (-1) a s)
        (vga_row_col_offset cfg (cfg.TXTMODE_COLS - 1) (cfg.TXTMODE_ROWS - 2) + 1) = a) ∧
    (∀ col : Int, 0 ≤ col → col < cfg.TXTMODE_COLS →
      buff (vga_print_char_c cfg c (-1) a s)
        (vga_row_col_offset cfg col (cfg.TXTMODE_ROWS - 1)) = 32 ∧
      buff (vga_print_char_c cfg c (-1) a s)
        (vga_row_col_offset cfg col (cfg.TXTMODE_ROWS - 1) + 1) = cfg.WHITE_ON_BLACK) ∧
    cursorOff (vga_print_char_c cfg c (-1) a s) =
      vga_row_col_offset cfg 0 (cfg.TXTMODE_ROWS - 1) := by
  have hC := hv.1
  have hR := hv.2.1
  have hsz := bufSize_le cfg hv
  have hlast := last_row_eq cfg
  have hrc := rows_cols_eq cfg
  have hrow := row_le_bufSize cfg hv
  have hs : startOff (-1) s = bufSize cfg - 2 := by
    simp only [startOff, hcur]
    rw [if_pos (by decide)]
    unfold bufSize; ring
  have hnext : nextOff cfg c (startOff (-1) s) = bufSize cfg := by
    simp only [nextOff, h10, h8, if_false, hs]; omega
  have hbuff := print_char_buff_glyph_scroll cfg (le_of_lt hC) c (-1) a s h10 h8
    (by rw [hs, hrc]; omega)
  simp only [hs] at hbuff
  refine ⟨?_, ?_, ?_, ?_, ?_⟩
  · rw [print_char_scrolls, hnext, hrc, if_pos (le_refl _)]
  · intro col r h0 h1 hr hn hne
    obtain ⟨b0, b1, b2, b3⟩ := cell_bounds cfg col r (cfg.TXTMODE_ROWS - 1) h0 h1 hr hn
    have hnot : vga_row_col_offset cfg col r + 2 ≠ 2 * ((cfg.TXTMODE_ROWS - 1) * cfg.TXTMODE_COLS) := by
      by_cases hr2 : r = cfg.TXTMODE_ROWS - 2
      · have e : vga_row_col_offset cfg col r
            = 2 * ((cfg.TXTMODE_ROWS - 1) * cfg.TXTMODE_COLS) - 2 * cfg.TXTMODE_COLS + 2 * col := by
          rw [hr2]; unfold vga_row_col_offset; ring
        have : col ≠ cfg.TXTMODE_COLS - 1 := fun h => hne ⟨h, hr2⟩
        omega
      · obtain ⟨-, c1, -, -⟩ := cell_bounds cfg col r (cfg.TXTMODE_ROWS - 2) h0 h1 hr (by omega)
        have e : (cfg.TXTMODE_ROWS - 1) * cfg.TXTMODE_COLS
            = (cfg.TXTMODE_ROWS - 2) * cfg.TXTMODE_COLS + cfg.TXTMODE_COLS := by ring
        omega
    rw [hbuff, hbuff, b3]
    constructor
    · rw [if_neg (by omega), if_pos (by omega), if_neg (by omega), if_neg (by omega)]
    · rw [if_neg (by omega), if_pos (by omega), if_neg (by omega), if_neg (by omega)]
      congr 1; omega
  · intro hR2
    have e : vga_row_col_offset cfg (cfg.TXTMODE_COLS - 1) (cfg.TXTMODE_ROWS - 2)
        = 2 * ((cfg.TXTMODE_ROWS - 1) * cfg.TXTMODE_COLS) - 2 := by
      unfold vga_row_col_offset; ring
    have hge := Int.mul_le_mul_of_nonneg_right (show 1 ≤ cfg.TXTMODE_ROWS - 1 by omega)
      (le_of_lt hC)
    rw [hbuff, hbuff, e]
    constructor
    · rw [if_neg (by omega), if_pos (by omega), if_neg (by omega), if_pos (by omega)]
    · rw [if_neg (by omega), if_pos (by omega), if_pos (by omega)]
  · intro col h0 h1
    have e : vga_row_col_offset cfg col (cfg.TXTMODE_ROWS - 1)
        = 2 * ((cfg.TXTMODE_ROWS - 1) * cfg.TXTMODE_COLS) + 2 * col := by
      unfold vga_row_col_offset; ring
    rw [hbuff, hbuff, e]
    constructor
    · rw [if_pos (by omega), if_pos (by omega)]
    · rw [if_pos (by omega), if_neg (by omega)]
  · have e : vga_row_col_offset cfg 0 (cfg.TXTMODE_ROWS - 1)
        = 2 * ((cfg.TXTMODE_ROWS - 1) * cfg.TXTMODE_COLS) := by
      unfold vga_row_col_offset; ring
    have hw : wrapInt (bufSize cfg - 2 * cfg.TXTMODE_COLS)
        = bufSize cfg - 2 * cfg.TXTMODE_COLS :=
      wrapInt_of_fits _ (by unfold INT_MIN; omega) (by unfold INT_MAX; omega)
    have hf : finalOff cfg c (startOff (-1) s) = bufSize cfg - 2 * cfg.TXTMODE_COLS := by
      simp only [finalOff, hnext, hrc, hw]
      rw [if_pos (le_refl _), if_neg (by omega)]
    rw [print_char_cursor, hf, e, hlast]
    apply cursor_fits <;> omega

/-- C3 (witness): the 80x25 mode and `lastCellState`, whose row `r` is filled with the byte
`65 + r`: after printing `'z'` with attribute 7, cell `(3, 5)` holds the former glyph of
`(3, 6)`, cell `(79, 23)` holds `'z'`, row 24 is blank and the cursor is at offset 3840. -/
theorem print_at_last_cell_witness :
    textMode.valid ∧
    cursorOff lastCellState = 2 * (textMode.TXTMODE_ROWS * textMode.TXTMODE_COLS - 1) ∧
    scrollCount (vga_print_char_c textMode 122 (-1) 7 lastCellState).trace = 1 ∧
    buff (vga_print_char_c textMode 122 (-1) 7 lastCellState) (vga_row_col_offset textMode 3 5)
      = 71 ∧
    buff (vga_print_char_c textMode 122 (-1) 7 lastCellState)
      (vga_row_col_offset textMode 79 23) = 122 ∧
    buff (vga_print_char_c textMode 122 (-1) 7 lastCellState)
      (vga_row_col_offset textMode 0 24) = 32 ∧
    cursorOff (vga_print_char_c textMode 122 (-1) 7 lastCellState) = 3840 :=
  have h := print_at_last_cell textMode (by decide) 122 7 (by decide) (by decide) lastCellState
    (by decide)
  ⟨by decide, by decide, h.1,
    (h.2.1 3 5 (by decide) (by decide) (by decide) (by decide) (by decide)).1.trans (by decide),
    (h.2.2.1 (by decide)).1,
    (h.2.2.2.1 0 (by decide) (by decide)).1,
    h.2.2.2.2.trans (by decide)⟩

/-! ## Printing glyphs -/

theorem cursorOff_even (s : VGA) : cursorOff s % 2 = 0 := by
  rw [cursorOff_eq]; omega

theorem startOff_cursor (s : VGA) : startOff (-1) s = cursorOff s := by
  simp [startOff]

/-- One glyph printed at the cursor, away from the end of the buffer. -/
theorem glyph_step (cfg : Config) (hv : cfg.valid) (c a : Nat) (h10 : c ≠ 10) (h8 : c ≠ 8)
    (s : VGA) (h : cursorOff s + 2 < bufSize cfg) :
    cursorOff (vga_print_char_c cfg c (-1) a s) = cursorOff s + 2 ∧
    ∀ y, buff (vga_print_char_c cfg c (-1) a s) y =
      if y = cursorOff s + 1 then a else if y = cursorOff s then c else buff s y := by
  have hsz := bufSize_le cfg hv
  have hrc := rows_cols_eq cfg
  have h0 := cursorOff_nonneg s
  have he := cursorOff_even s
  constructor
  · have hf : finalOff cfg c (startOff (-1) s) = cursorOff s + 2 := by
      simp only [finalOff, nextOff, h10, h8, if_false, startOff_cursor, hrc]
      rw [if_neg (by omega), if_neg (by omega)]
    rw [print_char_cursor, hf]
    apply cursor_fits <;> omega
  · intro y
    rw [print_char_buff_glyph cfg c (-1) a s h10 h8 (by rw [startOff_cursor, hrc]; exact h),
      startOff_cursor]

/-- A string without null, newline or backspace printed at the cursor, away from the end
of the buffer: closed form of the frame buffer and of the cursor. -/
theorem plain_string_loop (cfg : Config) (hv : cfg.valid) (a : Nat) (str : List Nat)
    (hstr : ∀ c ∈ str, c ≠ 0 ∧ c ≠ 10 ∧ c ≠ 8) (s : VGA)
    (h : cursorOff s + 2 * (str.length : Int) < bufSize cfg) :
    cursorOff (vga_print_string_loop cfg a str s) = cursorOff s + 2 * (str.length : Int) ∧
    ∀ y, buff (vga_print_string_loop cfg a str s) y =
      if cursorOff s ≤ y ∧ y < cursorOff s + 2 * (str.length : Int) then
        (if (y - cursorOff s) % 2 = 0 then str.getD ((y - cursorOff s) / 2).toNat 0 else a)
      else buff s y := by
  induction str generalizing s with
  | nil =>
    refine ⟨by simp [vga_print_string_loop], fun y => ?_⟩
    rw [vga_print_string_loop, if_neg]
    simp only [List.length_nil]; omega
  | cons c rest ih =>
    obtain ⟨hc0, hc10, hc8⟩ := hstr c (List.mem_cons_self c rest)
    simp only [List.length_cons, Nat.cast_add, Nat.cast_one] at h ⊢
    obtain ⟨g1, g2⟩ := glyph_step cfg hv c a hc10 hc8 s (by omega)
    obtain ⟨i1, i2⟩ := ih (fun d hd => hstr d (List.mem_cons_of_mem c hd))
      (vga_print_char_c cfg c (-1) a s) (by rw [g1]; omega)
    rw [vga_print_string_loop, if_neg hc0]
    refine ⟨by rw [i1, g1]; ring, fun y => ?_⟩
    rw [i2, g1, g2]
    by_cases hy : cursorOff s + 2 ≤ y ∧ y < cursorOff s + 2 + 2 * (rest.length : Int)
    · obtain ⟨n, hn⟩ : ∃ n : Nat, ((y - cursorOff s) / 2).toNat = n + 1 ∧
          ((y - (cursorOff s + 2)) / 2).toNat = n :=
        ⟨((y - (cursorOff s + 2)) / 2).toNat, by omega, rfl⟩
      have hR : cursorOff s ≤ y ∧ y < cursorOff s + 2 * ((rest.length : Int) + 1) := by omega
      rw [if_pos hy, if_pos hR, hn.1, hn.2, List.getD_cons_succ]
      split_ifs <;> first | rfl | (exfalso; omega)
    · rw [if_neg hy]
      by_cases hy0 : y = cursorOff s
      · have hz : ((y - cursorOff s) / 2).toNat = 0 := by omega
        have hR : cursorOff s ≤ y ∧ y < cursorOff s + 2 * ((rest.length : Int) + 1) := by
          omega
        have hE : (y - cursorOff s) % 2 = 0 := by omega
        have hN : ¬ y = cursorOff s + 1 := by omega
        rw [if_neg hN, if_pos hy0, if_pos hR, if_pos hE, hz, List.getD_cons_zero]
      · by_cases hy1 : y = cursorOff s + 1
        · have hR : cursorOff s ≤ y ∧ y < cursorOff s + 2 * ((rest.length : Int) + 1) := by
            omega
          have hE : ¬ (y - cursorOff s) % 2 = 0 := by omega
          rw [if_pos hy1, if_pos hR, if_neg hE]
        · have hR : ¬ (cursorOff s ≤ y ∧ y < cursorOff s + 2 * ((rest.length : Int) + 1)) := by
            omega
          rw [if_neg hy1, if_neg hy0, if_neg hR]

/-- The frame buffer and the cursor after `vga_print_string_c` of a string without null,
newline or backspace at an even explicit offset, away from the end of the buffer. -/
theorem plain_string_at (cfg : Config) (hv : cfg.valid) (a : Nat) (x : Int) (hx0 : 0 ≤ x)
    (hxe : x % 2 = 0) (str : List Nat) (hstr : ∀ c ∈ str, c ≠ 0 ∧ c ≠ 10 ∧ c ≠ 8) (s : VGA)
    (h : x + 2 * (str.length : Int) < bufSize cfg) :
    cursorOff (vga_print_string_c cfg str x a s) = x + 2 * (str.length : Int) ∧
    ∀ y, buff (vga_print_string_c cfg str x a s) y =
      if x ≤ y ∧ y < x + 2 * (str.length : Int) then
        (if (y - x) % 2 = 0 then str.getD ((y - x) / 2).toNat 0 else a)
      else buff s y := by
  have hsz := bufSize_le cfg hv
  have hcur : cursorOff (vga_set_cursor_off x s) = x := by
    rw [cursorOff_set_cursor x hx0]
    apply cursor_fits <;> omega
  have hl := plain_string_loop cfg hv a str hstr (vga_set_cursor_off x s) (by rw [hcur]; exact h)
  rw [hcur] at hl
  simp only [vga_print_string_c, if_neg (not_lt.mpr hx0)]
  refine ⟨hl.1, fun y => ?_⟩
  rw [hl.2 y, buff_congr (set_cursor_mem x s)]

/-- C4: for every attribute `a`, every even explicit offset `x >= 0` and every string of
`n` bytes, none of them null, newline or backspace, with `x + 2n < 2*COLS*ROWS`: after
`vga_print_string_c` the byte at offset `x+2i` is the `i`-th byte of the string and the
byte at offset `x+2i+1` is `a`, for every `i < n`, and the cursor offset is `x + 2n`. -/
theorem print_string_writes_cells (cfg : Config) (hv : cfg.valid) (a : Nat) (x : Int)
    (hx0 : 0 ≤ x) (hxe : x % 2 = 0) (str : List Nat)
    (hstr : ∀ c ∈ str, c ≠ 0 ∧ c ≠ 10 ∧ c ≠ 8) (s : VGA)
    (h : x + 2 * (str.length : Int) < bufSize cfg) :
    (∀ (i : Nat) (hi : i < str.length),
      buff (vga_print_string_c cfg str x a s) (x + 2 * (i : Int)) = str.get ⟨i, hi⟩ ∧
      buff (vga_print_string_c cfg str x a s) (x + 2 * (i : Int) + 1) = a) ∧
    cursorOff (vga_print_string_c cfg str x a s) = x + 2 * (str.length : Int) := by
  obtain ⟨h1, h2⟩ := plain_string_at cfg hv a x hx0 hxe str hstr s h
  refine ⟨fun i hi => ⟨?_, ?_⟩, h1⟩
  · have hz : ((x + 2 * (i : Int) - x) / 2).toNat = i := by omega
    have hR : x ≤ x + 2 * (i : Int) ∧ x + 2 * (i : Int) < x + 2 * (str.length : Int) := by
      omega
    have hE : (x + 2 * (i : Int) - x) % 2 = 0 := by omega
    rw [h2, if_pos hR, if_pos hE, hz, List.getD_eq_getElem _ _ hi, List.get_eq_getElem]
  · have hR : x ≤ x + 2 * (i : Int) + 1 ∧ x + 2 * (i : Int) + 1 < x + 2 * (str.length : Int) := by
      omega
    have hE : ¬ (x + 2 * (i : Int) + 1 - x) % 2 = 0 := by omega
    rw [h2, if_pos hR, if_neg hE]

/-- C4 (witness): in the 80x25 mode, `vga_clear` followed by printing `"AB"` at offset 0
gives `'A'` in cell `(0,0)`, `'B'` in cell `(1,0)` and the cursor offset 4. -/
theorem print_string_writes_cells_witness :
    buff (vga_print_string textMode [65, 66] 0 (vga_clear textMode zeroState))
      (vga_row_col_offset textMode 0 0) = 65 ∧
    buff (vga_print_string textMode [65, 66] 0 (vga_clear textMode zeroState))
      (vga_row_col_offset textMode 1 0) = 66 ∧
    cursorOff (vga_print_string textMode [65, 66] 0 (vga_clear textMode zeroState)) = 4 :=
  have h := print_string_writes_cells textMode (by decide) textMode.WHITE_ON_BLACK 0
    (by decide) (by decide) [65, 66] (by decide) (vga_clear textMode zeroState) (by decide)
  ⟨(h.1 0 (by decide)).1, (h.1 1 (by decide)).1, h.2⟩

/-! ## Control characters -/

theorem mem_eq_of_buff {u s : VGA} (h : ∀ x, buff u x = buff s x) : u.mem = s.mem := by
  funext p
  have := h (p - VGA_ADDRESS)
  simp only [buff] at this
  rwa [show VGA_ADDRESS + (p - VGA_ADDRESS) = p by ring] at this

/-- C5: when the cursor lies in row `r` with `r + 1 < ROWS` (the offset read back from the
registers is always even), printing a newline at the current cursor sets the cursor offset
to `rowColOffset(0, r+1)` and leaves every byte of memory, so every frame buffer byte,
unchanged. -/
theorem newline_moves_to_next_row (cfg : Config) (hv : cfg.valid) (a : Nat) (s : VGA) (r : Int)
    (hr : vga_offset_row cfg (cursorOff s) = r) (h : r + 1 < cfg.TXTMODE_ROWS) :
    cursorOff (vga_print_char_c cfg 10 (-1) a s) = vga_row_col_offset cfg 0 (r + 1) ∧
    (vga_print_char_c cfg 10 (-1) a s).mem = s.mem := by
  have hC := hv.1
  have hsz := bufSize_le cfg hv
  have hrc := rows_cols_eq cfg
  have hr0 : 0 ≤ r := hr ▸ offset_row_nonneg cfg _ hC (cursorOff_nonneg s)
  obtain ⟨b0, b1, b2, -⟩ := cell_bounds cfg 0 (r + 1) cfg.TXTMODE_ROWS (le_refl 0) hC
    (by omega) h
  have hb : 2 * (cfg.TXTMODE_ROWS * cfg.TXTMODE_COLS) = bufSize cfg := by unfold bufSize; ring
  have hnext : nextOff cfg 10 (startOff (-1) s) = vga_row_col_offset cfg 0 (r + 1) := by
    simp only [nextOff, if_true, startOff_cursor, hr]
  constructor
  · have hf : finalOff cfg 10 (startOff (-1) s) = vga_row_col_offset cfg 0 (r + 1) := by
      simp only [finalOff, hnext, hrc]
      have h1 : ¬ (vga_row_col_offset cfg 0 (r + 1) ≥ bufSize cfg) := by omega
      have h2 : ¬ (vga_row_col_offset cfg 0 (r + 1) < 0) := by omega
      rw [if_neg h1, if_neg h2]
    rw [print_char_cursor, hf]
    apply cursor_fits <;> omega
  · apply mem_eq_of_buff
    intro x
    exact print_char_buff_control cfg 10 (-1) a s (Or.inl rfl) (by rw [hnext, hrc]; omega) x

/-- C5 (witness): in the 80x25 mode, `vga_clear` followed by printing `"A\nB"` at offset 0
gives `'A'` in cell `(0,0)`, `'B'` in cell `(0,1)` and the cursor at `rowColOffset(1,1)`;
the newline is the second of the three characters. -/
theorem newline_moves_to_next_row_witness :
    buff (vga_print_string textMode [65, 10, 66] 0 (vga_clear textMode zeroState))
      (vga_row_col_offset textMode 0 0) = 65 ∧
    buff (vga_print_string textMode [65, 10, 66] 0 (vga_clear textMode zeroState))
      (vga_row_col_offset textMode 0 1) = 66 ∧
    cursorOff (vga_print_string textMode [65, 10, 66] 0 (vga_clear textMode zeroState))
      = vga_row_col_offset textMode 1 1 := by
  have hv : textMode.valid := by decide
  have e : vga_print_string textMode [65, 10, 66] 0 (vga_clear textMode zeroState)
      = vga_print_char_c textMode 66 (-1) 15 (vga_print_char_c textMode 10 (-1) 15
          (vga_print_char_c textMode 65 (-1) 15
            (vga_set_cursor_off 0 (vga_clear textMode zeroState)))) := rfl
  have c0 : cursorOff (vga_set_cursor_off 0 (vga_clear textMode zeroState)) = 0 := by
    rw [cursorOff_set_cursor 0 (le_refl 0)]; decide
  obtain ⟨c1, b1⟩ := glyph_step textMode hv 65 15 (by decide) (by decide)
    (vga_set_cursor_off 0 (vga_clear textMode zeroState)) (by rw [c0]; decide)
  rw [c0] at c1 b1
  obtain ⟨c2, b2⟩ := newline_moves_to_next_row textMode hv 15
    (vga_print_char_c textMode 65 (-1) 15 (vga_set_cursor_off 0 (vga_clear textMode zeroState)))
    0 (by rw [c1]; decide) (by decide)
  obtain ⟨c3, b3⟩ := glyph_step textMode hv 66 15 (by decide) (by decide)
    (vga_print_char_c textMode 10 (-1) 15
      (vga_print_char_c textMode 65 (-1) 15
        (vga_set_cursor_off 0 (vga_clear textMode zeroState))))
    (by rw [c2]; decide)
  rw [c2] at c3 b3
  rw [e]
  refine ⟨?_, ?_, ?_⟩
  · rw [b3, buff_congr b2, b1]; decide
  · rw [b3]; decide
  · rw [c3]; decide

/-- C6: when the cursor offset `x` satisfies `2 <= x < 2*COLS*ROWS` (the offset read back
from the registers is always even), printing a backspace at the current cursor leaves the
cursor offset at `x - 2` and leaves every byte of memory, so every frame buffer byte,
unchanged. -/
theorem backspace_moves_back (cfg : Config) (hv : cfg.valid) (a : Nat) (s : VGA)
    (h2 : 2 ≤ cursorOff s) (h : cursorOff s < bufSize cfg) :
    cursorOff (vga_print_char_c cfg 8 (-1) a s) = cursorOff s - 2 ∧
    (vga_print_char_c cfg 8 (-1) a s).mem = s.mem := by
  have hsz := bufSize_le cfg hv
  have hrc := rows_cols_eq cfg
  have he := cursorOff_even s
  have hnext : nextOff cfg 8 (startOff (-1) s) = cursorOff s - 2 := by
    simp [nextOff, startOff_cursor]
  constructor
  · have hf : finalOff cfg 8 (startOff (-1) s) = cursorOff s - 2 := by
      simp only [finalOff, hnext, hrc]
      have h1 : ¬ (cursorOff s - 2 ≥ bufSize cfg) := by omega
      have h3 : ¬ (cursorOff s - 2 < 0) := by omega
      rw [if_neg h1, if_neg h3]
    rw [print_char_cursor, hf]
    apply cursor_fits <;> omega
  · apply mem_eq_of_buff
    intro x
    exact print_char_buff_control cfg 8 (-1) a s (Or.inr rfl) (by rw [hnext, hrc]; omega) x

/-- C6 (witness): in the 80x25 mode a backspace with the cursor at column 5 moves it to
column 4, and the glyphs `'X'` at column 4 and `'Y'` at column 5 stay. -/
theorem backspace_moves_back_witness :
    cursorOff columnFiveState = vga_row_col_offset textMode 5 0 ∧
    cursorOff (vga_print_char_c textMode 8 (-1) 15 columnFiveState)
      = vga_row_col_offset textMode 4 0 ∧
    buff (vga_print_char_c textMode 8 (-1) 15 columnFiveState)
      (vga_row_col_offset textMode 4 0) = 88 ∧
    buff (vga_print_char_c textMode 8 (-1) 15 columnFiveState)
      (vga_row_col_offset textMode 5 0) = 89 :=
  have h := backspace_moves_back textMode (by decide) 15 columnFiveState (by decide) (by decide)
  ⟨by decide, h.1.trans (by decide), (buff_congr h.2 _).trans (by decide),
    (buff_congr h.2 _).trans (by decide)⟩

/-- C7: when the offset a backspace starts from is 0 (the current cursor at column 0 of
row 0, or the explicit offset 0), `vga_print_char_c` leaves the cursor offset at 0, and
leaves every byte of memory unchanged. -/
theorem backspace_at_origin_clamps (cfg : Config) (hv : cfg.valid) (a : Nat) (off : Int)
    (s : VGA) (h : startOff off s = 0) :
    cursorOff (vga_print_char_c cfg 8 off a s) = 0 ∧
    (vga_print_char_c cfg 8 off a s).mem = s.mem := by
  have hrow := row_le_bufSize cfg hv
  have hC := hv.1
  have hrc := rows_cols_eq cfg
  have hnext : nextOff cfg 8 (startOff off s) = -2 := by
    simp [nextOff, h]
  constructor
  · have hf : finalOff cfg 8 (startOff off s) = 0 := by
      simp only [finalOff, hnext, hrc]
      have h1 : ¬ (-2 ≥ bufSize cfg) := by omega
      rw [if_neg h1, if_pos (by decide)]
    rw [print_char_cursor, hf]; decide
  · apply mem_eq_of_buff
    intro x
    exact print_char_buff_control cfg 8 off a s (Or.inr rfl) (by rw [hnext, hrc]; omega) x

/-- C7 (witness): in the 80x25 mode, a backspace right after `vga_clear` keeps the cursor
offset at 0. -/
theorem backspace_at_origin_clamps_witness :
    cursorOff (vga_clear textMode zeroState) = 0 ∧
    cursorOff (vga_print_char_c textMode 8 (-1) 15 (vga_clear textMode zeroState)) = 0 ∧
    (vga_print_char_c textMode 8 (-1) 15 (vga_clear textMode zeroState)).mem
      = (vga_clear textMode zeroState).mem :=
  have hc : cursorOff (vga_clear textMode zeroState) = 0 := clear_cursor textMode zeroState
  have h := backspace_at_origin_clamps textMode (by decide) 15 (-1)
    (vga_clear textMode zeroState) (by rw [startOff_cursor]; exact hc)
  ⟨hc, h.1, h.2⟩

/-! ## Cursor registers, offsets and clearing -/

/-- C8: for every even `x` with `0 <= x < 2*COLS*ROWS` and every prior state of the
registers, `vga_get_cursor_off` called after `vga_set_cursor_off x` returns `x`, provided
the grid has at most 65536 cells so that every cell index fits the two byte registers. -/
theorem cursor_round_trip (cfg : Config)
    (hfit : cfg.TXTMODE_COLS * cfg.TXTMODE_ROWS ≤ 65536) (x : Int) (hx0 : 0 ≤ x)
    (hx1 : x < bufSize cfg) (hxe : x % 2 = 0) (s : VGA) :
    (vga_get_cursor_off (vga_set_cursor_off x s)).1 = x := by
  have hb : bufSize cfg = 2 * (cfg.TXTMODE_COLS * cfg.TXTMODE_ROWS) := by unfold bufSize; ring
  rw [get_cursor_fst, cursorOff_set_cursor x hx0]
  apply cursor_fits <;> omega

/-- C8 (witness): in the 80x25 mode the offset 3998 of the last cell survives the trip
through the registers of `lastCellState`. -/
theorem cursor_round_trip_witness :
    (vga_get_cursor_off (vga_set_cursor_off 3998 lastCellState)).1 = 3998 :=
  cursor_round_trip textMode (by decide) 3998 (by decide) (by decide) (by decide) lastCellState

/-- C9: for every `col` and `row` with `0 <= col < COLS` and `0 <= row < ROWS`,
`vga_row_col_offset col row` equals `2*(row*COLS + col)` and `vga_offset_row` of it equals
`row`. -/
theorem row_col_offset_round_trip (cfg : Config) (col row : Int) (h0 : 0 ≤ col)
    (h1 : col < cfg.TXTMODE_COLS) (hr0 : 0 ≤ row) (_hr1 : row < cfg.TXTMODE_ROWS) :
    vga_row_col_offset cfg col row = 2 * (row * cfg.TXTMODE_COLS + col) ∧
    vga_offset_row cfg (vga_row_col_offset cfg col row) = row :=
  ⟨rfl, offset_row_of_cell cfg col row h0 h1 hr0⟩

/-- C9 (witness): cell `(79, 24)` of the 80x25 mode sits at offset 3998, in row 24. -/
theorem row_col_offset_round_trip_witness :
    vga_row_col_offset textMode 79 24 = 2 * (24 * 80 + 79) ∧
    vga_offset_row textMode (vga_row_col_offset textMode 79 24) = 24 :=
  row_col_offset_round_trip textMode 79 24 (by decide) (by decide) (by decide) (by decide)

/-- C10: from every starting state, calling `vga_clear` twice in a row yields the same
memory (so the same frame buffer), the same CRT controller registers and the same port
latches as calling it once, and the cursor offset afterwards is 0. -/
theorem clear_idempotent (cfg : Config) (s : VGA) :
    (vga_clear cfg (vga_clear cfg s)).mem = (vga_clear cfg s).mem ∧
    (vga_clear cfg (vga_clear cfg s)).crtc = (vga_clear cfg s).crtc ∧
    (vga_clear cfg (vga_clear cfg s)).port = (vga_clear cfg s).port ∧
    cursorOff (vga_clear cfg (vga_clear cfg s)) = 0 ∧
    cursorOff (vga_clear cfg s) = 0 := by
  refine ⟨?_, ?_, ?_, clear_cursor cfg _, clear_cursor cfg s⟩
  · apply mem_eq_of_buff
    intro x
    rw [clear_buff cfg (vga_clear cfg s), clear_buff cfg s]
    split_ifs <;> rfl
  · funext r
    rw [clear_crtc cfg (vga_clear cfg s), clear_crtc cfg s]
    show (if r = 15 then 0 else if r = 14 then 0
        else (if r = 15 then 0 else if r = 14 then 0 else s.crtc r))
      = (if r = 15 then 0 else if r = 14 then 0 else s.crtc r)
    split_ifs <;> rfl
  · funext p
    rw [clear_port cfg (vga_clear cfg s), clear_port cfg s]
    show (if p = VGA_CTRL_REGISTER then VGA_OFFSET_LOW
        else (if p = VGA_CTRL_REGISTER then VGA_OFFSET_LOW else s.port p))
      = (if p = VGA_CTRL_REGISTER then VGA_OFFSET_LOW else s.port p)
    split_ifs <;> rfl

/-! ## Clearing and initialisation -/

theorem enable_blink_crtc (s : VGA) : (vga_enable_blink s).crtc = s.crtc := by
  simp [vga_enable_blink, port_byte_out, port_byte_in, VGA_DATA_REGISTER]

theorem enable_blink_mem (s : VGA) : (vga_enable_blink s).mem = s.mem := by
  simp [vga_enable_blink, port_byte_out, port_byte_in, VGA_DATA_REGISTER]

/-- The cells of the grid lie inside the range `vga_clear` fills. -/
theorem cell_in_clear_range (cfg : Config) (col row : Int) (h0 : 0 ≤ col)
    (h1 : col < cfg.TXTMODE_COLS) (hr0 : 0 ≤ row) (hr1 : row < cfg.TXTMODE_ROWS) :
    0 ≤ vga_row_col_offset cfg col row ∧
    vga_row_col_offset cfg col row + 2
      ≤ 2 * ((cfg.TXTMODE_COLS * cfg.TXTMODE_ROWS).toNat : Int) ∧
    vga_row_col_offset cfg col row % 2 = 0 := by
  obtain ⟨b0, b1, b2, -⟩ := cell_bounds cfg col row cfg.TXTMODE_ROWS h0 h1 hr0 hr1
  have hcomm : cfg.TXTMODE_ROWS * cfg.TXTMODE_COLS = cfg.TXTMODE_COLS * cfg.TXTMODE_ROWS :=
    mul_comm _ _
  have hnn : 0 ≤ cfg.TXTMODE_COLS * cfg.TXTMODE_ROWS :=
    mul_nonneg (by omega) (by omega)
  refine ⟨b0, ?_, b2⟩
  rw [hcomm] at b1
  omega

/-- C11: from every starting state, after `vga_clear`, and likewise after `vga_init`,
every cell `(col, row)` of the `COLS x ROWS` grid holds the space glyph at its even offset
and the default attribute at the following odd offset, and `vga_get_cursor_off` returns
0. -/
theorem clear_and_init_blank_screen (cfg : Config) (s : VGA) :
    (∀ col row : Int, 0 ≤ col → col < cfg.TXTMODE_COLS → 0 ≤ row → row < cfg.TXTMODE_ROWS →
      vga_row_col_offset cfg col row % 2 = 0 ∧
      buff (vga_clear cfg s) (vga_row_col_offset cfg col row) = 32 ∧
      buff (vga_clear cfg s) (vga_row_col_offset cfg col row + 1) = cfg.WHITE_ON_BLACK ∧
      buff (vga_init cfg s) (vga_row_col_offset cfg col row) = 32 ∧
      buff (vga_init cfg s) (vga_row_col_offset cfg col row + 1) = cfg.WHITE_ON_BLACK) ∧
    (vga_get_cursor_off (vga_clear cfg s)).1 = 0 ∧
    (vga_get_cursor_off (vga_init cfg s)).1 = 0 := by
  refine ⟨?_, clear_cursor cfg s, clear_cursor cfg _⟩
  intro col row h0 h1 hr0 hr1
  obtain ⟨b0, b1, b2⟩ := cell_in_clear_range cfg col row h0 h1 hr0 hr1
  have hin : 0 ≤ vga_row_col_offset cfg col row ∧ vga_row_col_offset cfg col row
      < 2 * ((cfg.TXTMODE_COLS * cfg.TXTMODE_ROWS).toNat : Int) := by omega
  have hin1 : 0 ≤ vga_row_col_offset cfg col row + 1 ∧ vga_row_col_offset cfg col row + 1
      < 2 * ((cfg.TXTMODE_COLS * cfg.TXTMODE_ROWS).toNat : Int) := by omega
  have hodd : ¬ (vga_row_col_offset cfg col row + 1) % 2 = 0 := by omega
  unfold vga_init
  refine ⟨b2, ?_, ?_, ?_, ?_⟩
  · rw [clear_buff, if_pos hin, if_pos b2]
  · rw [clear_buff, if_pos hin1, if_neg hodd]
  · rw [clear_buff, if_pos hin, if_pos b2]
  · rw [clear_buff, if_pos hin1, if_neg hodd]

/-- C11 (witness): in the 80x25 mode, starting from `busyState`, the last cell `(79, 24)`
is blank after `vga_clear` and after `vga_init`, and the cursor reads 0. -/
theorem clear_and_init_blank_screen_witness :
    buff busyState (vga_row_col_offset textMode 79 24) = 144 ∧
    buff (vga_clear textMode busyState) (vga_row_col_offset textMode 79 24) = 32 ∧
    buff (vga_init textMode busyState) (vga_row_col_offset textMode 79 24 + 1) = 15 ∧
    (vga_get_cursor_off busyState).1 = 1542 ∧
    (vga_get_cursor_off (vga_init textMode busyState)).1 = 0 :=
  have h := clear_and_init_blank_screen textMode busyState
  have hc := h.1 79 24 (by decide) (by decide) (by decide) (by decide)
  ⟨by decide, hc.2.1, hc.2.2.2.2, by decide, h.2.2⟩

/-! ## Strings as sequences of characters -/

theorem forLoop_mem_congr (body : Int → VGA → VGA)
    (hb : ∀ i u v, u.mem = v.mem → (body i u).mem = (body i v).mem)
    (k : Nat) (i : Int) (u v : VGA) (h : u.mem = v.mem) :
    (forLoop body k i u).mem = (forLoop body k i v).mem := by
  induction k generalizing i u v with
  | zero => exact h
  | succ k ih =>
    rw [forLoop, forLoop]
    exact ih _ _ _ (hb i u v h)

theorem set_char_mem_congr (c : Nat) (off : Int) (color : Nat) (u v : VGA)
    (h : u.mem = v.mem) :
    (vga_set_char_c c off color u).mem = (vga_set_char_c c off color v).mem := by
  simp only [vga_set_char_c, h]

theorem scroll_line_mem_congr (cfg : Config) (off : Int) (u v : VGA) (h : u.mem = v.mem) :
    (vga_scroll_line cfg off u).2.mem = (vga_scroll_line cfg off v).2.mem := by
  simp only [vga_scroll_line, memcpy]
  apply forLoop_mem_congr
  · intro i a b hab
    exact set_char_mem_congr _ _ _ a b hab
  · apply forLoop_mem_congr
    · intro i a b hab
      simp only [hab]
    · exact h

theorem cursorOff_congr {u v : VGA} (h : u.crtc = v.crtc) : cursorOff u = cursorOff v := by
  rw [cursorOff_eq, cursorOff_eq, h]

theorem startOff_congr (off : Int) {u v : VGA} (h : u.crtc = v.crtc) :
    startOff off u = startOff off v := by
  simp only [startOff, cursorOff_congr h]

theorem set_char_crtc (c : Nat) (off : Int) (color : Nat) (s : VGA) :
    (vga_set_char_c c off color s).crtc = s.crtc := rfl

/-- The frame buffer and the registers after `vga_print_char_c` depend on the state only
through its memory and its CRT controller registers. -/
theorem print_char_congr (cfg : Config) (c : Nat) (off : Int) (color : Nat) (u v : VGA)
    (hm : u.mem = v.mem) (hc : u.crtc = v.crtc) :
    (vga_print_char_c cfg c off color u).mem = (vga_print_char_c cfg c off color v).mem ∧
    (vga_print_char_c cfg c off color u).crtc = (vga_print_char_c cfg c off color v).crtc := by
  obtain ⟨a, am, ac, -, ha⟩ := print_char_eq cfg c off color u
  obtain ⟨b, bm, bc, -, hb⟩ := print_char_eq cfg c off color v
  have hab : a.mem = b.mem := by rw [am, bm, hm]
  have habc : a.crtc = b.crtc := by rw [ac, bc, hc]
  have hs := startOff_congr off hc
  rw [ha, hb, hs]
  have hin : (if c = 10 then a else if c = 8 then a
        else vga_set_char_c c (startOff off v) color a).mem
      = (if c = 10 then b else if c = 8 then b
        else vga_set_char_c c (startOff off v) color b).mem := by
    split_ifs
    · exact hab
    · exact hab
    · exact set_char_mem_congr _ _ _ a b hab
  have hinc : (if c = 10 then a else if c = 8 then a
        else vga_set_char_c c (startOff off v) color a).crtc
      = (if c = 10 then b else if c = 8 then b
        else vga_set_char_c c (startOff off v) color b).crtc := by
    split_ifs
    · exact habc
    · exact habc
    · exact habc
  generalize (if c = 10 then a else if c = 8 then a
    else vga_set_char_c c (startOff off v) color a) = x at hin hinc ⊢
  generalize (if c = 10 then b else if c = 8 then b
    else vga_set_char_c c (startOff off v) color b) = y at hin hinc ⊢
  constructor
  · rw [set_cursor_mem, set_cursor_mem]
    by_cases hge : nextOff cfg c (startOff off v) ≥ cfg.TXTMODE_ROWS * cfg.TXTMODE_COLS * 2
    · simp only [if_pos hge]
      exact scroll_line_mem_congr cfg _ _ _ hin
    · simp only [if_neg hge]
      exact hin
  · rw [set_cursor_crtc _ (finalOff_nonneg _ _ _), set_cursor_crtc _ (finalOff_nonneg _ _ _)]
    by_cases hge : nextOff cfg c (startOff off v) ≥ cfg.TXTMODE_ROWS * cfg.TXTMODE_COLS * 2
    · simp only [if_pos hge, scroll_line_crtc, hinc]
    · simp only [if_neg hge, hinc]

theorem print_loop_congr (cfg : Config) (color : Nat) (str : List Nat) (u v : VGA)
    (hm : u.mem = v.mem) (hc : u.crtc = v.crtc) :
    (vga_print_string_loop cfg color str u).mem = (vga_print_string_loop cfg color str v).mem ∧
    (vga_print_string_loop cfg color str u).crtc
      = (vga_print_string_loop cfg color str v).crtc := by
  induction str generalizing u v with
  | nil => exact ⟨hm, hc⟩
  | cons c rest ih =>
    rw [vga_print_string_loop, vga_print_string_loop]
    split_ifs
    · exact ⟨hm, hc⟩
    · obtain ⟨h1, h2⟩ := print_char_congr cfg c (-1) color u v hm hc
      exact ih _ _ h1 h2

/-- The `while` loop of `vga_print_string_c` is the fold of `vga_print_char_c` over the
bytes before the first null byte. -/
theorem print_loop_eq_fold (cfg : Config) (color : Nat) (str : List Nat) (u : VGA) :
    vga_print_string_loop cfg color str u =
      (str.takeWhile (fun c => c != 0)).foldl
        (fun t c => vga_print_char_c cfg c (-1) color t) u := by
  induction str generalizing u with
  | nil => rfl
  | cons c rest ih =>
    rw [vga_print_string_loop]
    by_cases h : c = 0
    · simp [h]
    · rw [if_neg h, ih]
      simp [List.takeWhile_cons, h]

/-- C12: for every byte sequence, attribute and starting argument, the memory (so the frame
buffer) and the CRT controller registers (so the cursor) after `vga_print_string_c` are
those of `printStringSpec`: the cursor forced to `off` when `off` is explicit, left alone
when it is the sentinel, then `vga_print_char_c` at the current cursor for each byte before
the first null byte.  For an explicit offset the two states are equal as a whole. -/
theorem print_string_refines_spec (cfg : Config) (str : List Nat) (off : Int) (color : Nat)
    (s : VGA) :
    (vga_print_string_c cfg str off color s).mem = (printStringSpec cfg str off color s).mem ∧
    (vga_print_string_c cfg str off color s).crtc = (printStringSpec cfg str off color s).crtc ∧
    cursorOff (vga_print_string_c cfg str off color s)
      = cursorOff (printStringSpec cfg str off color s) ∧
    (0 ≤ off → vga_print_string_c cfg str off color s = printStringSpec cfg str off color s) := by
  have key : (vga_print_string_c cfg str off color s).mem
        = (printStringSpec cfg str off color s).mem ∧
      (vga_print_string_c cfg str off color s).crtc
        = (printStringSpec cfg str off color s).crtc := by
    unfold vga_print_string_c printStringSpec
    rw [← print_loop_eq_fold]
    by_cases h : off < 0
    · simp only [if_pos h]
      exact print_loop_congr cfg color str _ _ (get_cursor_mem s) (get_cursor_crtc s)
    · rw [if_neg h, if_neg h]
      exact ⟨rfl, rfl⟩
  refine ⟨key.1, key.2, cursorOff_congr key.2, fun h => ?_⟩
  unfold vga_print_string_c printStringSpec
  rw [← print_loop_eq_fold]
  simp only [if_neg (not_lt.mpr h)]

/-- C12 (witness): on the 80x25 mode, printing the bytes `'A'`, null, `'B'` at the explicit
offset 6 is printing `'A'` alone after forcing the cursor to 6, and printing them at the
current cursor leaves the memory that printing `'A'` alone at the cursor leaves. -/
theorem print_string_refines_spec_witness :
    vga_print_string_c textMode [65, 0, 66] 6 15 busyState
      = vga_print_char_c textMode 65 (-1) 15 (vga_set_cursor_off 6 busyState) ∧
    (vga_print_string_c textMode [65, 0, 66] (-1) 15 busyState).mem
      = (vga_print_char_c textMode 65 (-1) 15 busyState).mem :=
  ⟨(print_string_refines_spec textMode [65, 0, 66] 6 15 busyState).2.2.2 (by decide),
    (print_string_refines_spec textMode [65, 0, 66] (-1) 15 busyState).1⟩

/-- A null-free first part is printed in full before the second part starts. -/
theorem print_loop_append (cfg : Config) (color : Nat) (s1 s2 : List Nat)
    (h1 : ∀ c ∈ s1, c ≠ 0) (u : VGA) :
    vga_print_string_loop cfg color (s1 ++ s2) u
      = vga_print_string_loop cfg color s2 (vga_print_string_loop cfg color s1 u) := by
  induction s1 generalizing u with
  | nil => rfl
  | cons c rest ih =>
    have hc : c ≠ 0 := h1 c (List.mem_cons_self c rest)
    rw [List.cons_append, vga_print_string_loop, vga_print_string_loop, if_neg hc, if_neg hc]
    exact ih (fun d hd => h1 d (List.mem_cons_of_mem c hd)) _

/-- C18: for every state, attribute and null-free byte strings `s1` and `s2`, printing
`s1 ++ s2` (at any starting argument `off`) yields the same memory, so the same frame
buffer, and the same CRT controller registers, so the same cursor, as printing `s1` (at
`off`) and then `s2` at the current cursor. -/
theorem print_string_append (cfg : Config) (color : Nat) (s1 s2 : List Nat)
    (h1 : ∀ c ∈ s1, c ≠ 0) (_h2 : ∀ c ∈ s2, c ≠ 0) (off : Int) (s : VGA) :
    (vga_print_string_c cfg (s1 ++ s2) off color s).mem
      = (vga_print_string_c cfg s2 (-1) color (vga_print_string_c cfg s1 off color s)).mem ∧
    (vga_print_string_c cfg (s1 ++ s2) off color s).crtc
      = (vga_print_string_c cfg s2 (-1) color (vga_print_string_c cfg s1 off color s)).crtc ∧
    cursorOff (vga_print_string_c cfg (s1 ++ s2) off color s)
      = cursorOff (vga_print_string_c cfg s2 (-1) color
          (vga_print_string_c cfg s1 off color s)) := by
  have key : (vga_print_string_c cfg (s1 ++ s2) off color s).mem
        = (vga_print_string_c cfg s2 (-1) color (vga_print_string_c cfg s1 off color s)).mem ∧
      (vga_print_string_c cfg (s1 ++ s2) off color s).crtc
        = (vga_print_string_c cfg s2 (-1) color
            (vga_print_string_c cfg s1 off color s)).crtc := by
    have e : vga_print_string_c cfg s2 (-1) color (vga_print_string_c cfg s1 off color s)
        = vga_print_string_loop cfg color s2
            (vga_get_cursor_off (vga_print_string_c cfg s1 off color s)).2 := by
      rw [vga_print_string_c, if_pos (by decide)]
    rw [e]
    simp only [vga_print_string_c]
    rw [print_loop_append cfg color s1 s2 h1]
    obtain ⟨m, c⟩ := print_loop_congr cfg color s2 _ _
      (get_cursor_mem (vga_print_string_loop cfg color s1
        (if off < 0 then (vga_get_cursor_off s).2 else vga_set_cursor_off off s)))
      (get_cursor_crtc (vga_print_string_loop cfg color s1
        (if off < 0 then (vga_get_cursor_off s).2 else vga_set_cursor_off off s)))
    exact ⟨m.symm, c.symm⟩
  exact ⟨key.1, key.2, cursorOff_congr key.2⟩

/-- C18 (witness): on the 80x25 mode with the cursor on the last cell, printing
`"z\nB"` in one call or as `"z\n"` followed by `"B"` leaves the same memory and the
same cursor, with scrolls inside the first part. -/
theorem print_string_append_witness :
    (vga_print_string_c textMode ([122, 10] ++ [66]) (-1) 7 lastCellState).mem
      = (vga_print_string_c textMode [66] (-1) 7
          (vga_print_string_c textMode [122, 10] (-1) 7 lastCellState)).mem ∧
    cursorOff (vga_print_string_c textMode ([122, 10] ++ [66]) (-1) 7 lastCellState)
      = cursorOff (vga_print_string_c textMode [66] (-1) 7
          (vga_print_string_c textMode [122, 10] (-1) 7 lastCellState)) :=
  have h := print_string_append textMode 7 [122, 10] [66] (by decide) (by decide) (-1)
    lastCellState
  ⟨h.1, h.2.2⟩

/-! ## The region copy -/

/-- The forward copy loop when the destination does not start inside the source range
after its first byte: the destination receives the source bytes, the rest is kept. -/
theorem copy_loop_apart (src dst : Int) (n : Nat) (hsd : dst ≤ src ∨ src + n ≤ dst)
    (k : Nat) (i : Int) (hi : 0 ≤ i) (hk : i + k ≤ n) (t : VGA) (a : Int) :
    (forLoop (fun i t => { t with mem := poke t.mem (dst + i) (t.mem (src + i)) }) k i t).mem a
      = if dst + i ≤ a ∧ a < dst + i + k then t.mem (a - dst + src) else t.mem a := by
  induction k generalizing i t with
  | zero =>
    rw [forLoop]
    split_ifs <;> first | rfl | (exfalso; omega)
  | succ k ih =>
    rw [forLoop, ih (i + 1) (by omega) (by omega)]
    simp only [poke]
    split_ifs <;> first | rfl | (exfalso; omega) | (congr 1; omega)

/-- Closed form of memory after `memcpy` in the directions where it acts as a move. -/
theorem memcpy_mem (src dst n : Int) (hsd : dst ≤ src ∨ src + n ≤ dst) (s : VGA) (a : Int) :
    (memcpy src dst n s).mem a
      = if dst ≤ a ∧ a < dst + n then s.mem (a - dst + src) else s.mem a := by
  have hsd2 : dst ≤ src ∨ src + (n.toNat : Int) ≤ dst := by omega
  simp only [memcpy]
  rw [copy_loop_apart src dst n.toNat hsd2 n.toNat 0 (le_refl 0) (by omega)]
  split_ifs <;> first | rfl | (exfalso; omega)

/-- C13 (counterexample): with the bytes 1, 2, 3 at the frame buffer offsets 0, 1, 2,
copying the two bytes at offset 0 to offset 1 leaves 1 at offset 2, where a move would
leave the former byte of offset 1, which is 2. -/
theorem forward_copy_overlap_fails :
    buff countingState (0 + 1) = 2 ∧
    buff (memcpy (VGA_ADDRESS + 0) (VGA_ADDRESS + 1) 2 countingState) (1 + 1) = 1 := by
  decide

/-- C13 (amended): for every memory content and every `src`, `dst` and `n` such that the
destination does not start inside the source range after its first byte (`dst <= src`, the
direction the scroll uses, or `dst >= src + n`), after `memcpy` the destination range holds
exactly the bytes the source range held before the call, and every byte outside the
destination range is unchanged. -/
theorem memcpy_moves_when_not_behind (src dst n : Int) (hsd : dst ≤ src ∨ src + n ≤ dst)
    (s : VGA) :
    (∀ j : Int, 0 ≤ j → j < n → (memcpy src dst n s).mem (dst + j) = s.mem (src + j)) ∧
    (∀ a : Int, ¬ (dst ≤ a ∧ a < dst + n) → (memcpy src dst n s).mem a = s.mem a) := by
  constructor
  · intro j hj0 hj1
    have hin : dst ≤ dst + j ∧ dst + j < dst + n := by omega
    rw [memcpy_mem src dst n hsd, if_pos hin]
    congr 1; omega
  · intro a ha
    rw [memcpy_mem src dst n hsd, if_neg ha]

/-- C13 (witness): with the bytes 1, 2, 3 at the frame buffer offsets 0, 1, 2, copying
the two bytes at offset 1 to offset 0, an overlapping move towards lower addresses, leaves
2, 3, 3. -/
theorem memcpy_moves_when_not_behind_witness :
    buff (memcpy (VGA_ADDRESS + 1) (VGA_ADDRESS + 0) 2 countingState) 0 = 2 ∧
    buff (memcpy (VGA_ADDRESS + 1) (VGA_ADDRESS + 0) 2 countingState) 1 = 3 ∧
    buff (memcpy (VGA_ADDRESS + 1) (VGA_ADDRESS + 0) 2 countingState) 2 = 3 :=
  have h := memcpy_moves_when_not_behind (VGA_ADDRESS + 1) (VGA_ADDRESS + 0) 2
    (Or.inl (by decide)) countingState
  ⟨(h.1 0 (by decide) (by decide)).trans (by decide),
    (h.1 1 (by decide) (by decide)).trans (by decide),
    (h.2 (VGA_ADDRESS + 2) (by decide)).trans (by decide)⟩

/-! ## Blink enable -/

/-- C14 (code as written): `vga_enable_blink` makes four port accesses; the value it read
from port `0x3c1`, with bit `0x80` set, goes to port `0x4c0`, while the attribute
controller port `0x3c0`, through which the register was selected, only ever receives the
index `0x30`.  On `busyState`, where every port reads `0x0c`, the value `0x8c` is written
to `0x4c0`. -/
theorem enable_blink_writes_port_4c0 :
    (∀ s : VGA, (vga_enable_blink s).trace =
      Event.portOut 0x4c0 ((s.port 0x3c1 ||| 0x80) % 256) :: Event.portIn 0x3c1 (s.port 0x3c1) ::
        Event.portOut 0x3c0 0x30 :: Event.portIn 0x3da (s.port 0x3da) :: s.trace) ∧
    (∀ s : VGA, (vga_enable_blink s).port 0x3c0 = 0x30 ∧
      (vga_enable_blink s).port 0x3c1 = s.port 0x3c1 ∧
      (vga_enable_blink s).port 0x4c0 = (s.port 0x3c1 ||| 0x80) % 256) ∧
    (vga_enable_blink busyState).port 0x4c0 = 0x8c ∧
    (vga_enable_blink busyState).port 0x3c1 = 0x0c := by
  refine ⟨fun s => ?_, fun s => ?_, by decide, by decide⟩
  · simp [vga_enable_blink, port_byte_out, port_byte_in, VGA_DATA_REGISTER]
  · simp [vga_enable_blink, port_byte_out, port_byte_in, VGA_DATA_REGISTER]

/-! ## Every access stays inside the frame buffer -/

theorem forLoop_inv (P : VGA → Prop) (body : Int → VGA → VGA) (k : Nat) (i : Int)
    (hb : ∀ j t, i ≤ j → j < i + k → P t → P (body j t)) (t : VGA) (h : P t) :
    P (forLoop body k i t) := by
  induction k generalizing i t with
  | zero => exact h
  | succ k ih =>
    rw [forLoop]
    apply ih
    · intro j u h1 h2 hu
      exact hb j u (by omega) (by push_cast; omega) hu
    · exact hb i t (le_refl i) (by push_cast; omega) h

theorem traceSafe_cons (cfg : Config) (e : Event) (t : List Event) (he : e.safe cfg)
    (ht : traceSafe cfg t) : traceSafe cfg (e :: t) := by
  intro x hx
  rcases List.mem_cons.mp hx with h | h
  · rw [h]; exact he
  · exact ht x h

theorem port_out_safe (cfg : Config) (port val : Nat) (s : VGA)
    (h : traceSafe cfg s.trace) : traceSafe cfg (port_byte_out port val s).trace := by
  unfold port_byte_out
  split_ifs <;> exact traceSafe_cons cfg _ _ trivial h

theorem port_in_safe (cfg : Config) (port : Nat) (s : VGA)
    (h : traceSafe cfg s.trace) : traceSafe cfg (port_byte_in port s).2.trace :=
  traceSafe_cons cfg _ _ trivial h

theorem set_cursor_safe (cfg : Config) (off : Int) (s : VGA)
    (h : traceSafe cfg s.trace) : traceSafe cfg (vga_set_cursor_off off s).trace := by
  unfold vga_set_cursor_off
  exact port_out_safe cfg _ _ _ (port_out_safe cfg _ _ _
    (port_out_safe cfg _ _ _ (port_out_safe cfg _ _ _ h)))

theorem get_cursor_safe (cfg : Config) (s : VGA)
    (h : traceSafe cfg s.trace) : traceSafe cfg (vga_get_cursor_off s).2.trace := by
  unfold vga_get_cursor_off
  exact port_in_safe cfg _ _ (port_out_safe cfg _ _ _
    (port_in_safe cfg _ _ (port_out_safe cfg _ _ _ h)))

theorem enable_blink_safe (cfg : Config) (s : VGA)
    (h : traceSafe cfg s.trace) : traceSafe cfg (vga_enable_blink s).trace := by
  unfold vga_enable_blink
  exact port_out_safe cfg _ _ _ (port_in_safe cfg _ _ (port_out_safe cfg _ _ _
    (port_in_safe cfg _ _ h)))

theorem set_char_safe (cfg : Config) (c : Nat) (off : Int) (color : Nat) (s : VGA)
    (ho : off % 2 = 0 ∧ 0 ≤ off ∧ off + 1 < bufSize cfg)
    (h : traceSafe cfg s.trace) : traceSafe cfg (vga_set_char_c c off color s).trace :=
  traceSafe_cons cfg _ _ ho h

theorem clear_safe (cfg : Config) (hv : cfg.valid) (s : VGA)
    (h : traceSafe cfg s.trace) : traceSafe cfg (vga_clear cfg s).trace := by
  unfold vga_clear
  apply set_cursor_safe
  apply forLoop_inv (fun t => traceSafe cfg t.trace)
  · intro j t h0 h1 ht
    have hb : bufSize cfg = 2 * (cfg.TXTMODE_COLS * cfg.TXTMODE_ROWS) := by unfold bufSize; ring
    have hnn : 0 ≤ cfg.TXTMODE_COLS * cfg.TXTMODE_ROWS :=
      mul_nonneg (le_of_lt hv.1) (le_of_lt hv.2.1)
    exact set_char_safe cfg _ _ _ t (by omega) ht
  · exact h

theorem scroll_line_safe (cfg : Config) (hv : cfg.valid) (off : Int) (s : VGA)
    (h : traceSafe cfg s.trace) : traceSafe cfg (vga_scroll_line cfg off s).2.trace := by
  have hC := hv.1
  have hR := hv.2.1
  have hrow := row_le_bufSize cfg hv
  unfold vga_scroll_line
  apply forLoop_inv (fun t => traceSafe cfg t.trace)
  · intro j t h0 h1 ht
    obtain ⟨b0, b1, b2, -⟩ := cell_bounds cfg j (cfg.TXTMODE_ROWS - 1) cfg.TXTMODE_ROWS h0
      (by omega) (by omega) (by omega)
    have hb : bufSize cfg = 2 * (cfg.TXTMODE_ROWS * cfg.TXTMODE_COLS) := by unfold bufSize; ring
    exact set_char_safe cfg _ _ _ t ⟨b2, b0, by omega⟩ ht
  · unfold memcpy
    apply forLoop_inv (fun t => traceSafe cfg t.trace)
    · intro j t _ _ ht
      exact ht
    · apply traceSafe_cons
      · have hn : cfg.TXTMODE_COLS * (cfg.TXTMODE_ROWS - 1) * 2
            = bufSize cfg - 2 * cfg.TXTMODE_COLS := by unfold bufSize; ring
        have e1 : vga_row_col_offset cfg 0 1 = 2 * cfg.TXTMODE_COLS := by
          unfold vga_row_col_offset; ring
        have e0 : vga_row_col_offset cfg 0 0 = 0 := by
          unfold vga_row_col_offset; ring
        show 0 ≤ _ ∧ VGA_ADDRESS ≤ _ ∧ _ ≤ VGA_ADDRESS + bufSize cfg ∧ VGA_ADDRESS ≤ _ ∧
          _ ≤ VGA_ADDRESS + bufSize cfg
        rw [hn, e1, e0]
        omega
      · exact traceSafe_cons cfg _ _ trivial h

theorem print_char_safe (cfg : Config) (hv : cfg.valid) (c : Nat) (off : Int) (hoff : off < 0)
    (color : Nat) (s : VGA) (hcur : cursorOff s < bufSize cfg)
    (h : traceSafe cfg s.trace) :
    traceSafe cfg (vga_print_char_c cfg c off color s).trace := by
  have h0 := cursorOff_nonneg s
  have he := cursorOff_even s
  have hbe : bufSize cfg % 2 = 0 := by
    have : bufSize cfg = 2 * (cfg.TXTMODE_COLS * cfg.TXTMODE_ROWS) := by unfold bufSize; ring
    omega
  have hg := get_cursor_safe cfg s h
  have hw : traceSafe cfg
      (vga_set_char_c c (vga_get_cursor_off s).1 color (vga_get_cursor_off s).2).trace :=
    set_char_safe cfg _ _ _ _ (by rw [get_cursor_fst]; omega) hg
  simp only [vga_print_char_c, if_pos hoff]
  apply set_cursor_safe
  split_ifs <;> first
    | exact hg
    | exact hw
    | exact scroll_line_safe cfg hv _ _ hg
    | exact scroll_line_safe cfg hv _ _ hw

theorem print_loop_safe (cfg : Config) (hv : cfg.valid) (color : Nat) (str : List Nat)
    (s : VGA) (hcur : cursorOff s < bufSize cfg) (h : traceSafe cfg s.trace) :
    traceSafe cfg (vga_print_string_loop cfg color str s).trace := by
  induction str generalizing s with
  | nil => exact h
  | cons c rest ih =>
    rw [vga_print_string_loop]
    split_ifs
    · exact h
    · apply ih
      · exact (print_char_in_range cfg hv c (-1) color s
          (by rw [startOff_cursor]; exact cursorOff_nonneg s)
          (by rw [startOff_cursor]; exact hcur)).2
      · exact print_char_safe cfg hv c (-1) (by decide) color s hcur h

theorem print_string_safe (cfg : Config) (hv : cfg.valid) (str : List Nat) (off : Int)
    (hoff : off < 0) (color : Nat) (s : VGA) (hcur : cursorOff s < bufSize cfg)
    (h : traceSafe cfg s.trace) :
    traceSafe cfg (vga_print_string_c cfg str off color s).trace := by
  simp only [vga_print_string_c, if_pos hoff]
  apply print_loop_safe cfg hv
  · rw [cursorOff_congr (get_cursor_crtc s)]; exact hcur
  · exact get_cursor_safe cfg s h

/-- In every reachable state the cursor is inside the frame buffer and every recorded call
stayed inside the frame buffer. -/
theorem reachable_inv (cfg : Config) (hv : cfg.valid) (s : VGA) (hr : Reachable cfg s) :
    cursorOff s < bufSize cfg ∧ traceSafe cfg s.trace := by
  induction hr with
  | init s0 h =>
    constructor
    · unfold vga_init
      rw [clear_cursor]
      have := row_le_bufSize cfg hv
      have := hv.1
      omega
    · unfold vga_init
      apply clear_safe cfg hv
      apply enable_blink_safe
      rw [h]
      intro e he
      exact absurd he (List.not_mem_nil e)
  | printChar s c off color hoff _ ih =>
    constructor
    · have hs : startOff off s = cursorOff s := by simp only [startOff, if_pos hoff]
      exact (print_char_in_range cfg hv c off color s
        (by rw [hs]; exact cursorOff_nonneg s) (by rw [hs]; exact ih.1)).2
    · exact print_char_safe cfg hv c off hoff color s ih.1 ih.2
  | printString s str off color hoff _ ih =>
    constructor
    · exact (print_string_in_range cfg hv str off color s (fun _ => ih.1) (by
        have := cursorOff_nonneg s
        omega)).2
    · exact print_string_safe cfg hv str off hoff color s ih.1 ih.2

/-- C15: in every state reachable from `vga_init` by `vga_print_char_c` and
`vga_print_string_c` calls that use the current-cursor sentinel, every cell write the
driver has performed (`vga_set_char_c` from printing, clearing and the bottom-row clearing
of the scroll) has an even offset `off` with `0 <= off` and `off + 1 < 2*COLS*ROWS`, and
every region copy of the scroll has read and written only bytes of the frame buffer. -/
theorem reachable_accesses_in_bounds (cfg : Config) (hv : cfg.valid) (s : VGA)
    (hr : Reachable cfg s) :
    (∀ off : Int, Event.setChar off ∈ s.trace →
      off % 2 = 0 ∧ 0 ≤ off ∧ off + 1 < bufSize cfg) ∧
    (∀ src dst n : Int, Event.copy src dst n ∈ s.trace →
      0 ≤ n ∧ VGA_ADDRESS ≤ src ∧ src + n ≤ VGA_ADDRESS + bufSize cfg ∧
      VGA_ADDRESS ≤ dst ∧ dst + n ≤ VGA_ADDRESS + bufSize cfg) :=
  ⟨fun off h => (reachable_inv cfg hv s hr).2 (Event.setChar off) h,
    fun src dst n h => (reachable_inv cfg hv s hr).2 (Event.copy src dst n) h⟩

/-- The cell write of a glyph printed at the cursor is recorded with the cursor offset. -/
theorem print_glyph_recorded (cfg : Config) (c : Nat) (color : Nat) (s : VGA)
    (h10 : c ≠ 10) (h8 : c ≠ 8) (hn : cursorOff s + 2 < bufSize cfg) :
    Event.setChar (cursorOff s) ∈ (vga_print_char_c cfg c (-1) color s).trace := by
  have hlt : ¬ (cursorOff s + 2 ≥ cfg.TXTMODE_ROWS * cfg.TXTMODE_COLS * 2) := by
    rw [rows_cols_eq]; omega
  have hneg : (-1 : Int) < 0 := by decide
  simp only [vga_print_char_c, if_pos hneg, if_neg h10, if_neg h8, get_cursor_fst, if_neg hlt]
  simp [vga_set_cursor_off, port_byte_out, vga_set_char_c, VGA_CTRL_REGISTER,
    VGA_DATA_REGISTER]

/-- C15 (witness): in the 80x25 mode, after `vga_init` on the power-on state and `'B'`
printed at the cursor, the recorded cell write at offset 0 is even and inside the
4000-byte frame buffer. -/
theorem reachable_accesses_in_bounds_witness :
    textMode.valid ∧
    Reachable textMode (vga_print_char_c textMode 66 (-1) 15 (vga_init textMode zeroState)) ∧
    Event.setChar 0 ∈
      (vga_print_char_c textMode 66 (-1) 15 (vga_init textMode zeroState)).trace ∧
    ((0 : Int) % 2 = 0 ∧ (0 : Int) ≤ 0 ∧ (0 : Int) + 1 < bufSize textMode) :=
  have hr : Reachable textMode
      (vga_print_char_c textMode 66 (-1) 15 (vga_init textMode zeroState)) :=
    Reachable.printChar _ 66 (-1) 15 (by decide) (Reachable.init zeroState rfl)
  have hc : cursorOff (vga_init textMode zeroState) = 0 := clear_cursor textMode _
  have hm : Event.setChar 0 ∈
      (vga_print_char_c textMode 66 (-1) 15 (vga_init textMode zeroState)).trace :=
    hc ▸ print_glyph_recorded textMode 66 15 (vga_init textMode zeroState) (by decide)
      (by decide) (by rw [hc]; decide)
  ⟨by decide, hr, hm, (reachable_accesses_in_bounds textMode (by decide) _ hr).1 0 hm⟩

/-! ## One scroll per overflow -/

/-- From an in-range cursor, the offset after the character's effect is even, and when it
reaches the end of the buffer it is exactly the end of the buffer. -/
theorem nextOff_facts (cfg : Config) (hv : cfg.valid) (c : Nat) (s : VGA)
    (h : cursorOff s < bufSize cfg) :
    nextOff cfg c (cursorOff s) % 2 = 0 ∧ -2 ≤ nextOff cfg c (cursorOff s) ∧
    nextOff cfg c (cursorOff s) ≤ bufSize cfg := by
  have hC := hv.1
  have h0 := cursorOff_nonneg s
  have he := cursorOff_even s
  have hbe : bufSize cfg % 2 = 0 := by
    have : bufSize cfg = 2 * (cfg.TXTMODE_COLS * cfg.TXTMODE_ROWS) := by unfold bufSize; ring
    omega
  have hr0 := offset_row_nonneg cfg (cursorOff s) hC h0
  have hr1 := offset_row_lt cfg (cursorOff s) hC h0 h
  have hnext := next_row_le cfg hC _ hr1
  obtain ⟨b0, -, b2, -⟩ := cell_bounds cfg 0 (vga_offset_row cfg (cursorOff s))
    cfg.TXTMODE_ROWS (le_refl 0) hC hr0 hr1
  simp only [nextOff]
  split_ifs <;> omega

/-- C16: from a state whose cursor offset (always even, never negative) is below
`2*COLS*ROWS`, `vga_print_char_c` at the current cursor calls `vga_scroll_line` exactly
when the offset after the character's effect is `>= ROWS*COLS*2`, calls it at most once,
and the offset it then hands to `vga_set_cursor_off`, which is the cursor offset read back
afterwards, is even and inside `[0, 2*COLS*ROWS)`; after an overflow it lies in row
`ROWS-1`. -/
theorem print_char_scrolls_once (cfg : Config) (hv : cfg.valid) (c a : Nat) (s : VGA)
    (h : cursorOff s < bufSize cfg) :
    (scrollCount (vga_print_char_c cfg c (-1) a s).trace = scrollCount s.trace + 1 ↔
      nextOff cfg c (cursorOff s) ≥ cfg.TXTMODE_ROWS * cfg.TXTMODE_COLS * 2) ∧
    (scrollCount (vga_print_char_c cfg c (-1) a s).trace = scrollCount s.trace ↔
      ¬ nextOff cfg c (cursorOff s) ≥ cfg.TXTMODE_ROWS * cfg.TXTMODE_COLS * 2) ∧
    scrollCount (vga_print_char_c cfg c (-1) a s).trace ≤ scrollCount s.trace + 1 ∧
    (∃ u : VGA, vga_print_char_c cfg c (-1) a s
      = vga_set_cursor_off (finalOff cfg c (cursorOff s)) u) ∧
    cursorOff (vga_print_char_c cfg c (-1) a s) = finalOff cfg c (cursorOff s) ∧
    finalOff cfg c (cursorOff s) % 2 = 0 ∧
    0 ≤ finalOff cfg c (cursorOff s) ∧ finalOff cfg c (cursorOff s) < bufSize cfg ∧
    (nextOff cfg c (cursorOff s) ≥ cfg.TXTMODE_ROWS * cfg.TXTMODE_COLS * 2 →
      vga_offset_row cfg (finalOff cfg c (cursorOff s)) = cfg.TXTMODE_ROWS - 1) := by
  have hC := hv.1
  have hsz := bufSize_le cfg hv
  have hrc := rows_cols_eq cfg
  have hrow := row_le_bufSize cfg hv
  obtain ⟨n0, n1, n2⟩ := nextOff_facts cfg hv c s h
  have hfin := finalOff_range cfg hv c (cursorOff s) (cursorOff_nonneg s) h
  have hfnn := finalOff_nonneg cfg c (cursorOff s)
  have hfe : finalOff cfg c (cursorOff s) % 2 = 0 := by
    simp only [finalOff, hrc, wrapInt]
    split_ifs <;> omega
  have hsc := print_char_scrolls cfg c (-1) a s
  rw [startOff_cursor] at hsc
  refine ⟨?_, ?_, ?_, ?_, ?_, hfe, hfnn, hfin, ?_⟩
  · rw [hsc]
    split_ifs with hge
    · exact ⟨fun _ => hge, fun _ => rfl⟩
    · exact ⟨fun hh => absurd hh (by omega), fun hh => absurd hh hge⟩
  · rw [hsc]
    split_ifs with hge
    · exact ⟨fun hh => absurd hh (by omega), fun hh => absurd hge hh⟩
    · exact ⟨fun _ => hge, fun _ => rfl⟩
  · rw [hsc]
    split_ifs <;> omega
  · obtain ⟨u, -, -, -, hu⟩ := print_char_eq cfg c (-1) a s
    rw [startOff_cursor] at hu
    exact ⟨_, hu⟩
  · rw [print_char_cursor, startOff_cursor]
    apply cursor_fits <;> omega
  · intro hge
    rw [hrc] at hge
    have hf : finalOff cfg c (cursorOff s) = vga_row_col_offset cfg 0 (cfg.TXTMODE_ROWS - 1) := by
      have e : vga_row_col_offset cfg 0 (cfg.TXTMODE_ROWS - 1)
          = 2 * ((cfg.TXTMODE_ROWS - 1) * cfg.TXTMODE_COLS) := by
        unfold vga_row_col_offset; ring
      rw [e, last_row_eq]
      simp only [finalOff, hrc, wrapInt]
      rw [if_pos hge]
      split_ifs <;> omega
    rw [hf]
    exact offset_row_of_cell cfg 0 (cfg.TXTMODE_ROWS - 1) (le_refl 0) hC (by have := hv.2.1; omega)

/-- C16 (witness): in the 80x25 mode, a glyph at the last cell (`lastCellState`) scrolls
once and leaves the cursor at 3840 in row 24; a glyph at column 5 (`columnFiveState`)
does not scroll and leaves the cursor at 12. -/
theorem print_char_scrolls_once_witness :
    scrollCount (vga_print_char_c textMode 122 (-1) 7 lastCellState).trace = 1 ∧
    cursorOff (vga_print_char_c textMode 122 (-1) 7 lastCellState) = 3840 ∧
    vga_offset_row textMode 3840 = 24 ∧
    scrollCount (vga_print_char_c textMode 122 (-1) 7 columnFiveState).trace = 0 ∧
    cursorOff (vga_print_char_c textMode 122 (-1) 7 columnFiveState) = 12 :=
  have h1 := print_char_scrolls_once textMode (by decide) 122 7 lastCellState (by decide)
  have h2 := print_char_scrolls_once textMode (by decide) 122 7 columnFiveState (by decide)
  ⟨h1.1.2 (by decide), h1.2.2.2.2.1.trans (by decide), by decide,
    h2.2.1.2 (by decide), h2.2.2.2.2.1.trans (by decide)⟩

/-- C19: for every offset `off >= 0` and every prior state, `vga_get_cursor_off` called
after `vga_set_cursor_off off` returns `2 * ((off / 2) mod 65536)`; the result is even,
an odd offset whose cell index fits 16 bits comes back as `off - 1`, and a cell index of
65536 or more comes back reduced modulo 65536. -/
theorem cursor_set_get_truncates (off : Int) (h : 0 ≤ off) (s : VGA) :
    (vga_get_cursor_off (vga_set_cursor_off off s)).1 = 2 * ((off / 2) % 65536) ∧
    (vga_get_cursor_off (vga_set_cursor_off off s)).1 % 2 = 0 ∧
    (off % 2 = 1 → off / 2 < 65536 →
      (vga_get_cursor_off (vga_set_cursor_off off s)).1 = off - 1) ∧
    (65536 ≤ off / 2 →
      (vga_get_cursor_off (vga_set_cursor_off off s)).1 < 131072 ∧
      (vga_get_cursor_off (vga_set_cursor_off off s)).1 ≠ off ∧
      (vga_get_cursor_off (vga_set_cursor_off off s)).1 ≠ off - 1) := by
  rw [get_cursor_fst, cursorOff_set_cursor off h]
  refine ⟨rfl, ?_, ?_, ?_⟩
  · omega
  · intro h1 h2; omega
  · intro h1; omega

/-- C19 (witness): the odd offset 4001 comes back as 4000, and the offset 131074, whose
cell index is 65537, comes back as 2. -/
theorem cursor_set_get_truncates_witness :
    (vga_get_cursor_off (vga_set_cursor_off 4001 busyState)).1 = 4000 ∧
    (vga_get_cursor_off (vga_set_cursor_off 131074 busyState)).1 = 2 :=
  ⟨((cursor_set_get_truncates 4001 (by decide) busyState).2.2.1 (by decide) (by decide)).trans
      (by decide),
    (cursor_set_get_truncates 131074 (by decide) busyState).1.trans (by decide)⟩

/-- C17: when the cursor offset `x` (always even, never negative) satisfies
`x + 2 < 2*COLS*ROWS`, printing a character other than newline and backspace at the
current cursor changes no frame buffer byte other than the two at offsets `x` and `x+1`,
which receive the glyph and the attribute. -/
theorem glyph_changes_only_its_cell (cfg : Config) (c a : Nat) (h10 : c ≠ 10) (h8 : c ≠ 8)
    (s : VGA) (h : cursorOff s + 2 < bufSize cfg) :
    (∀ y : Int, y ≠ cursorOff s → y ≠ cursorOff s + 1 →
      buff (vga_print_char_c cfg c (-1) a s) y = buff s y) ∧
    buff (vga_print_char_c cfg c (-1) a s) (cursorOff s) = c ∧
    buff (vga_print_char_c cfg c (-1) a s) (cursorOff s + 1) = a ∧
    cursorOff s % 2 = 0 ∧ 0 ≤ cursorOff s := by
  have hb := print_char_buff_glyph cfg c (-1) a s h10 h8
    (by rw [startOff_cursor, rows_cols_eq]; exact h)
  rw [startOff_cursor] at hb
  refine ⟨fun y hy0 hy1 => ?_, ?_, ?_, cursorOff_even s, cursorOff_nonneg s⟩
  · rw [hb, if_neg hy1, if_neg hy0]
  · have hne : ¬ cursorOff s = cursorOff s + 1 := by omega
    rw [hb, if_neg hne, if_pos rfl]
  · rw [hb, if_pos rfl]

/-- C17 (witness): in the 80x25 mode with the cursor at column 5, printing `'z'` with
attribute 7 writes cell 5 and keeps the glyphs `'X'` of column 4 and the byte after the
cell. -/
theorem glyph_changes_only_its_cell_witness :
    cursorOff columnFiveState = 10 ∧
    buff (vga_print_char_c textMode 122 (-1) 7 columnFiveState) 8 = 88 ∧
    buff (vga_print_char_c textMode 122 (-1) 7 columnFiveState) 12 = 0 ∧
    buff (vga_print_char_c textMode 122 (-1) 7 columnFiveState) 10 = 122 ∧
    buff (vga_print_char_c textMode 122 (-1) 7 columnFiveState) 11 = 7 :=
  have h := glyph_changes_only_its_cell textMode 122 7 (by decide) (by decide) columnFiveState
    (by decide)
  ⟨by decide, (h.1 8 (by decide) (by decide)).trans (by decide),
    (h.1 12 (by decide) (by decide)).trans (by decide), h.2.1, h.2.2.1⟩

end VgaTerm
